import Mathlib

set_option autoImplicit false

namespace Serde

/-!
Shallow embedding of `curated_transformers/util/serde.py`.

Tensors are modelled by their shape, dtype and an abstract payload.  Python
`Mapping`/`dict` values (state dicts, bucket contents) are modelled as
insertion-ordered association lists whose keys are unique by construction in
the source (Python dict keys are unique); dict assignment is modelled by
`dictInsertT`/`updateSlot`.  Python `set` values (`seen_keys`,
`expected_keys`) are modelled as duplicate-free lists with insert-if-absent.
Exceptions are modelled by `Except LoadError`; `assert` failures map to
`LoadError.assertionFailed`.  Devices and `requires_grad` are dropped: no
statement below depends on them.
-/

/-- A tensor: shape, element dtype (abstract code) and abstract payload. -/
structure Tensor where
  shape : List Nat
  dtype : Nat
  data : Nat
deriving DecidableEq

/-- One module of the destination tree: its direct parameters, direct buffers
(`None` slots allowed, as in PyTorch) and the set of non-persistent buffer
names (`_non_persistent_buffers_set`). -/
structure ModuleData where
  params : List (String × Option Tensor)
  buffers : List (String × Option Tensor)
  nonPersistent : List String
deriving DecidableEq

/-- Modelled from the spec: `apply_to_module` / `ModuleIterator`
(`util/pytorch.py`, not under `src/`) traverse the destination module tree
and visit every module together with its dotted prefix ("Recurse depth-first
over submodules; ordering across sibling submodules is unspecified").  We
represent the destination model as that traversal: the list of
(prefix, module) pairs in visiting order. -/
abbrev Model := List (String × ModuleData)

/-- The errors raised by `serde.py` (`ValueError`, `KeyError`, failed
`assert`), with the data interpolated into each message. -/
inductive LoadError where
  | multipleBuckets (key : String) (count : Nat)
  | paramAndBuffer (name : String) (modulePfx : String)
  | noData (name : String) (modulePfx : String)
  | sizeMismatch (name : String) (expected got : List Nat)
  | dtypeMismatch (name : String) (expected got : Nat)
  | missingKeys (keys : List String)
  | bucketsNotEmpty
  | assertionFailed
deriving DecidableEq

/-- Python dict lookup `d[k]` / `k in d` on a tensor dict. -/
def assocFind : List (String × Tensor) → String → Option Tensor
  | [], _ => none
  | kv :: rest, k => if kv.1 = k then some kv.2 else assocFind rest k

/-- Python dict lookup on a slot dict (`_parameters` / `_buffers`), whose
values may be `None`. -/
def assocFindSlot : List (String × Option Tensor) → String → Option (Option Tensor)
  | [], _ => none
  | kv :: rest, k => if kv.1 = k then some kv.2 else assocFindSlot rest k

/-- Python `name in d` on a slot dict. -/
def hasSlotNamed : List (String × Option Tensor) → String → Bool
  | [], _ => false
  | kv :: rest, k => kv.1 = k || hasSlotNamed rest k

/-- Python dict assignment `d[k] = some v` on a slot dict whose key `k` is
already present (keys are unique, so at most one entry changes). -/
def updateSlot : List (String × Option Tensor) → String → Tensor → List (String × Option Tensor)
  | [], _, _ => []
  | kv :: rest, k, v =>
    if kv.1 = k then (kv.1, some v) :: updateSlot rest k v
    else kv :: updateSlot rest k v

/-- Python dict assignment `d[k] = v` on a tensor dict: overwrite in place if
present, else append (insertion order preserved). -/
def dictInsertT (d : List (String × Tensor)) (k : String) (v : Tensor) : List (String × Tensor) :=
  if d.any (fun p => p.1 = k) then d.map (fun p => if p.1 = k then (k, v) else p)
  else d ++ [(k, v)]

/-- `_validate_replacement` (serde.py:298-310). -/
def validateReplacement (replaced replacement : Tensor) (name : String) : Except LoadError Unit :=
  if replaced.shape ≠ replacement.shape then
    .error (.sizeMismatch name replaced.shape replacement.shape)
  else if replaced.dtype ≠ replacement.dtype then
    .error (.dtypeMismatch name replaced.dtype replacement.dtype)
  else .ok ()

/-- `default_tensor_to_parameter_converter` (serde.py:177-202): reads the old
parameter, asserts it is not `None`, validates against the *module prefix* as
the reported name, and wraps the replacement tensor as the new parameter. -/
def defaultTensorToParameterConverter (md : ModuleData) (modulePfx parameterName : String)
    (tensor : Tensor) : Except LoadError Tensor :=
  match assocFindSlot md.params parameterName with
  | some (some oldParam) =>
    match validateReplacement oldParam tensor modulePfx with
    | .error e => .error e
    | .ok _ => .ok tensor
  | _ => .error .assertionFailed

/-- `_emplace_module_tensor` (serde.py:267-295): `assert is_parameter ^
is_buffer`; parameters go through the tensor-to-parameter converter (default
one modelled here), buffers are validated against the full key
`module_prefix.tensor_name` and substituted directly. -/
def emplaceModuleTensor (md : ModuleData) (modulePfx tensorName : String) (replacement : Tensor) :
    Except LoadError ModuleData :=
  let isParameter := hasSlotNamed md.params tensorName
  let isBuffer := hasSlotNamed md.buffers tensorName
  if isParameter = isBuffer then .error .assertionFailed
  else if isParameter then
    match defaultTensorToParameterConverter md modulePfx tensorName replacement with
    | .error e => .error e
    | .ok newParam => .ok { md with params := updateSlot md.params tensorName newParam }
  else
    match assocFindSlot md.buffers tensorName with
    | some (some oldBuffer) =>
      match validateReplacement oldBuffer replacement (modulePfx ++ "." ++ tensorName) with
      | .error e => .error e
      | .ok _ => .ok { md with buffers := updateSlot md.buffers tensorName replacement }
    | _ => .error .assertionFailed

/-- The buffer loop of `_emplace_module_state_dict` (serde.py:237-243):
starting from a snapshot of `_parameters`, add each buffer unless its name
collides (error) or it is non-persistent (skipped). -/
def addBuffers (nonPersistent : List String) (modulePfx : String) :
    List (String × Option Tensor) → List (String × Option Tensor) →
    Except LoadError (List (String × Option Tensor))
  | acc, [] => .ok acc
  | acc, nb :: rest =>
    if hasSlotNamed acc nb.1 then .error (.paramAndBuffer nb.1 modulePfx)
    else if nb.1 ∈ nonPersistent then addBuffers nonPersistent modulePfx acc rest
    else addBuffers nonPersistent modulePfx (acc ++ [nb]) rest

/-- The slot loop of `_emplace_module_state_dict` (serde.py:245-262): for each
snapshot slot whose full key is in the candidate dict, error on a `None` slot,
otherwise emplace the replacement tensor; keys not present are skipped. -/
def installSlots (modulePfx : String) (candidates : List (String × Tensor)) :
    ModuleData → List (String × Option Tensor) → Except LoadError ModuleData
  | md, [] => .ok md
  | md, nv :: rest =>
    match assocFind candidates (modulePfx ++ "." ++ nv.1) with
    | none => installSlots modulePfx candidates md rest
    | some replacement =>
      match nv.2 with
      | none => .error (.noData nv.1 modulePfx)
      | some _ =>
        match emplaceModuleTensor md modulePfx nv.1 replacement with
        | .error e => .error e
        | .ok md' => installSlots modulePfx candidates md' rest

/-- Python `s.startswith(p)`, on the underlying character lists. -/
def strStartsWith (p s : String) : Bool := p.toList.isPrefixOf s.toList

/-- The body of `apply` in `_emplace_module_state_dict` (serde.py:226-262) for
one visited module: filter the state dict to keys starting with
`prefix + "."`, return unchanged if empty, else build the slot snapshot and
install. -/
def applyModule (modulePfx : String) (md : ModuleData) (stateDict : List (String × Tensor)) :
    Except LoadError ModuleData :=
  let pfxDot := modulePfx ++ "."
  let candidateTensors := stateDict.filter (fun kv => strStartsWith pfxDot kv.1)
  if candidateTensors.length = 0 then .ok md
  else
    match addBuffers md.nonPersistent modulePfx md.params md.buffers with
    | .error e => .error e
    | .ok slots => installSlots modulePfx candidateTensors md slots

/-- `_emplace_module_state_dict` (serde.py:216-264): apply to every visited
module of the model; each module transformation depends only on its own data
and the state dict. -/
def emplaceModuleStateDict : Model → List (String × Tensor) → Except LoadError Model
  | [], _ => .ok []
  | pm :: rest, sd =>
    match applyModule pm.1 pm.2 sd with
    | .error e => .error e
    | .ok md' =>
      match emplaceModuleStateDict rest sd with
      | .error e => .error e
      | .ok rest' => .ok ((pm.1, md') :: rest')

/-- Python `set.add` on the seen-keys set, modelled as a duplicate-free
insertion-ordered list. -/
def seenInsert (seen : List String) (k : String) : List String :=
  if k ∈ seen then seen else seen ++ [k]

/-- Python `set.update` with an iterable of keys. -/
def seenUpdate : List String → List String → List String
  | seen, [] => seen
  | seen, k :: ks => seenUpdate (seenInsert seen k) ks

/-- `convert_and_load_state_dict` (serde.py:109-125): run the state-dict
converter; an empty result is a no-op (nothing recorded); otherwise record all
converted keys into seen-keys and emplace into the model. -/
def convertAndLoadStateDict (conv : List (String × Tensor) → List (String × Tensor))
    (model : Model) (stateDict : List (String × Tensor)) (seen : List String) :
    Except LoadError (Model × List String) :=
  let converted := conv stateDict
  if converted.length = 0 then .ok (model, seen)
  else
    let seen' := seenUpdate seen (converted.map Prod.fst)
    match emplaceModuleStateDict model converted with
    | .error e => .error e
    | .ok model' => .ok (model', seen')

/-- Python substring test `needle in hay` on the underlying character lists. -/
def strContainsAux (needle : List Char) : List Char → Bool
  | [] => needle.isEmpty
  | c :: rest => needle.isPrefixOf (c :: rest) || strContainsAux needle rest

/-- Python substring test `needle in hay` for strings. -/
def strContains (needle hay : String) : Bool := strContainsAux needle.toList hay.toList

/-- `RegExParameterBucket` (serde.py:53-78): a match predicate (modelling
`key_matcher.search(key) is not None` for the configured pattern), the
expected key fragments, and the accumulated key-to-tensor dict. -/
structure RegexBucket where
  matchFn : String → Bool
  expectedKeys : List String
  contents : List (String × Tensor)

/-- `RegExParameterBucket.ready` (serde.py:68-78): sizes must agree, and the
count of expected fragments that occur as a substring of at least one
accumulated key must equal the number of expected fragments. -/
def bucketReady (b : RegexBucket) : Bool :=
  if b.expectedKeys.length ≠ b.contents.length then false
  else b.expectedKeys.countP (fun e => b.contents.any (fun kv => strContains e kv.1))
    = b.expectedKeys.length

/-- The number of configured buckets whose match predicate accepts `k`
(serde.py:145-148). -/
def numMatching (bs : List RegexBucket) (k : String) : Nat :=
  (bs.filter (fun b => b.matchFn k)).length

/-- Insert a pair into the first bucket that matches the key
(`matching_buckets[0][name] = param`, serde.py:152). -/
def insertFirstMatching : List RegexBucket → String → Tensor → List RegexBucket
  | [], _, _ => []
  | b :: bs, k, v =>
    if b.matchFn k then { b with contents := dictInsertT b.contents k v } :: bs
    else b :: insertFirstMatching bs k v

/-- Classification of one (key, tensor) pair (serde.py:144-156). -/
def classifyItem (bs : List RegexBucket) (dflt : List (String × Tensor)) (k : String) (v : Tensor) :
    Except LoadError (List RegexBucket × List (String × Tensor)) :=
  let n := numMatching bs k
  if n = 0 then .ok (bs, dictInsertT dflt k v)
  else if n = 1 then .ok (insertFirstMatching bs k v, dflt)
  else .error (.multipleBuckets k n)

/-- Classification of all pairs of one shard, in iteration order. -/
def classifyItems : List RegexBucket → List (String × Tensor) → List (String × Tensor) →
    Except LoadError (List RegexBucket × List (String × Tensor))
  | bs, dflt, [] => .ok (bs, dflt)
  | bs, dflt, kv :: rest =>
    match classifyItem bs dflt kv.1 kv.2 with
    | .error e => .error e
    | .ok (bs', dflt') => classifyItems bs' dflt' rest

/-- The bucket loop at the end of each shard iteration (serde.py:163-166):
each ready bucket is converted-and-loaded and then cleared; non-ready buckets
are left untouched. -/
def processBuckets (conv : List (String × Tensor) → List (String × Tensor)) :
    Model → List String → List RegexBucket →
    Except LoadError (Model × List RegexBucket × List String)
  | model, seen, [] => .ok (model, [], seen)
  | model, seen, b :: bs =>
    if bucketReady b then
      match convertAndLoadStateDict conv model b.contents seen with
      | .error e => .error e
      | .ok (model', seen') =>
        match processBuckets conv model' seen' bs with
        | .error e => .error e
        | .ok (m, rest, s) => .ok (m, { b with contents := [] } :: rest, s)
    else
      match processBuckets conv model seen bs with
      | .error e => .error e
      | .ok (m, rest, s) => .ok (m, b :: rest, s)

/-- The mutable state threaded through the shard loop of
`load_model_from_checkpoints`: the model being mutated, the shared default
bucket, the configured buckets and the seen-keys set. -/
structure LoadState where
  model : Model
  defaultBucket : List (String × Tensor)
  buckets : List RegexBucket
  seen : List String

/-- One iteration of the shard loop (serde.py:142-166): classify every pair,
convert-and-load the default bucket and clear it, then process the configured
buckets in order. -/
def processShard (conv : List (String × Tensor) → List (String × Tensor))
    (st : LoadState) (shard : List (String × Tensor)) : Except LoadError LoadState :=
  match classifyItems st.buckets st.defaultBucket shard with
  | .error e => .error e
  | .ok (bs1, dflt1) =>
    match convertAndLoadStateDict conv st.model dflt1 st.seen with
    | .error e => .error e
    | .ok (m1, seen1) =>
      match processBuckets conv m1 seen1 bs1 with
      | .error e => .error e
      | .ok (m2, bs2, seen2) => .ok ⟨m2, [], bs2, seen2⟩

/-- The full shard loop over the sequence of state dicts. -/
def processShards (conv : List (String × Tensor) → List (String × Tensor)) :
    LoadState → List (List (String × Tensor)) → Except LoadError LoadState
  | st, [] => .ok st
  | st, shard :: rest =>
    match processShard conv st shard with
    | .error e => .error e
    | .ok st' => processShards conv st' rest

/-- Modelled from the spec: `Module.state_dict` (PyTorch, outside this
repository) yields the fully-qualified keys of every non-`None` parameter and
every non-`None` persistent buffer of a module; "buffers may be marked
non-persistent (excluded from load expectations)". -/
def moduleStateDictKeys (pfx : String) (md : ModuleData) : List String :=
  md.params.filterMap (fun nv => nv.2.map (fun _ => pfx ++ "." ++ nv.1)) ++
  md.buffers.filterMap (fun nv =>
    if nv.2.isSome && !(md.nonPersistent.contains nv.1) then some (pfx ++ "." ++ nv.1)
    else none)

/-- Modelled from the spec: the pre-load snapshot `set(model.state_dict().keys())`
("destination parameter/buffer keys captured before loading began"), as the
keys of every visited module. -/
def stateDictKeys : Model → List String
  | [] => []
  | pm :: rest => moduleStateDictKeys pm.1 pm.2 ++ stateDictKeys rest

/-- `load_model_from_checkpoints` (serde.py:81-174), with the checkpoint
reader abstracted into the given list of state dicts: snapshot the module
keys, run the shard loop, then the missing-keys check followed by the
non-empty-buckets check. -/
def loadModelFromCheckpoints (model : Model) (shards : List (List (String × Tensor)))
    (buckets : List RegexBucket) (conv : List (String × Tensor) → List (String × Tensor)) :
    Except LoadError Model :=
  let moduleKeys := stateDictKeys model
  match processShards conv ⟨model, [], buckets, []⟩ shards with
  | .error e => .error e
  | .ok final =>
    let missing := moduleKeys.filter (fun k => !(final.seen.contains k))
    if missing.length ≠ 0 then .error (.missingKeys missing)
    else if final.buckets.any (fun b => b.contents.length ≠ 0) then .error .bucketsNotEmpty
    else .ok final.model

/-- The fully-qualified keys of the slots that `_emplace_module_state_dict`
considers for one visited module: all parameters plus the persistent buffers
(serde.py:234-243); non-persistent buffers are excluded. -/
def consideredKeysOfModule (pfx : String) (md : ModuleData) : List String :=
  md.params.map (fun nv => pfx ++ "." ++ nv.1) ++
  (md.buffers.filter (fun nv => !(md.nonPersistent.contains nv.1))).map
    (fun nv => pfx ++ "." ++ nv.1)

/-- A concrete tensor used in witnesses. -/
def tZero : Tensor := ⟨[1], 0, 0⟩

/-- A concrete destination module whose only slot is the non-persistent
buffer `running_count`. -/
def bnModule : ModuleData := ⟨[], [("running_count", some tZero)], ["running_count"]⟩

/-- A concrete bucket state exhibiting the genuine readiness weakness. -/
def overlapBucket : RegexBucket :=
  ⟨fun _ => false, ["qq", "kk"], [("A.qq.kk", tZero), ("zzz", tZero)]⟩

/-- A concrete destination module with a single (4,4) parameter. -/
def encModule : ModuleData := ⟨[("weight", some ⟨[4, 4], 0, 0⟩)], [], []⟩

/-- A bucket that matches every key; used in witnesses. -/
def matchAllBucket : RegexBucket := ⟨fun _ => true, [], []⟩

/-! ## Helper lemmas -/

theorem strContainsAux_iff (needle hay : List Char) :
    strContainsAux needle hay = true ↔ needle <:+: hay := by
  induction hay with
  | nil => simp [strContainsAux, List.isEmpty_iff, List.infix_nil]
  | cons c rest ih => simp [strContainsAux, List.infix_cons_iff, ih]

theorem strContains_iff (needle hay : String) :
    strContains needle hay = true ↔ needle.toList <:+: hay.toList :=
  strContainsAux_iff needle.toList hay.toList

theorem bucketReady_eq_true_iff (b : RegexBucket) :
    bucketReady b = true ↔
      b.contents.length = b.expectedKeys.length ∧
        ∀ e ∈ b.expectedKeys, ∃ kv ∈ b.contents, e.toList <:+: kv.1.toList := by
  unfold bucketReady
  rcases eq_or_ne b.expectedKeys.length b.contents.length with h | h
  · rw [if_neg (by simp [h])]
    simp only [decide_eq_true_eq]
    rw [List.countP_eq_length]
    simp only [List.any_eq_true, decide_eq_true_eq]
    constructor
    · intro hall
      refine ⟨h.symm, fun e he => ?_⟩
      rcases hall e he with ⟨kv, hkv, hc⟩
      exact ⟨kv, hkv, (strContains_iff e kv.1).mp hc⟩
    · rintro ⟨-, hall⟩ e he
      rcases hall e he with ⟨kv, hkv, hc⟩
      exact ⟨kv, hkv, (strContains_iff e kv.1).mpr hc⟩
  · rw [if_pos h]
    constructor
    · intro hfalse
      exact absurd hfalse (by simp)
    · rintro ⟨hlen, -⟩
      exact absurd hlen.symm h

theorem hasSlotNamed_eq_isSome (d : List (String × Option Tensor)) (k : String) :
    hasSlotNamed d k = (assocFindSlot d k).isSome := by
  induction d with
  | nil => rfl
  | cons kv rest ih =>
    by_cases h : kv.1 = k
    · simp [hasSlotNamed, assocFindSlot, h]
    · simp [hasSlotNamed, assocFindSlot, h, ih]

theorem validateReplacement_mismatch (oldT newT : Tensor) (name : String)
    (hmis : oldT.shape ≠ newT.shape ∨ oldT.dtype ≠ newT.dtype) :
    validateReplacement oldT newT name =
      .error (if oldT.shape ≠ newT.shape then .sizeMismatch name oldT.shape newT.shape
              else .dtypeMismatch name oldT.dtype newT.dtype) := by
  unfold validateReplacement
  by_cases hs : oldT.shape = newT.shape
  · rcases hmis with h | hd
    · exact absurd hs h
    · rw [if_neg (not_not_intro hs), if_pos hd, if_neg (not_not_intro hs)]
  · rw [if_pos hs, if_pos hs]

/-! ## Claims about bucket readiness -/

/-- C3: for every Pattern-Grouped (regex) bucket, `ready()` returns true if
and only if the number of accumulated tensors equals the size of the
expected-fragment set and every expected fragment string is a substring of at
least one accumulated key. -/
theorem regexBucketReadyIff (b : RegexBucket) :
    bucketReady b = true ↔
      b.contents.length = b.expectedKeys.length ∧
        ∀ e ∈ b.expectedKeys, ∃ kv ∈ b.contents, e.toList <:+: kv.1.toList :=
  bucketReady_eq_true_iff b

theorem bucketReady_false_of_unmatched (b : RegexBucket)
    (_hlen : b.contents.length = b.expectedKeys.length)
    (e1 e2 e3 : String) (kv0 : String × Tensor)
    (_h1 : e1 ∈ b.expectedKeys) (_h2 : e2 ∈ b.expectedKeys) (h3 : e3 ∈ b.expectedKeys)
    (_hne : e1 ≠ e2) (_hkv : kv0 ∈ b.contents)
    (_hi1 : e1.toList <:+: kv0.1.toList) (_hi2 : e2.toList <:+: kv0.1.toList)
    (hnone : ∀ kv ∈ b.contents, ¬ e3.toList <:+: kv.1.toList) :
    bucketReady b = false := by
  cases hready : bucketReady b with
  | false => rfl
  | true =>
    rcases (bucketReady_eq_true_iff b).mp hready with ⟨-, hall⟩
    rcases hall e3 h3 with ⟨kv, hkv', hinf⟩
    exact absurd hinf (hnone kv hkv')

/-- C6 counterexample: the claimed bucket state cannot exist.  The
proposition "there is a Pattern-Grouped bucket state whose accumulated-tensor
count equals the expected-fragment-set size, in which two distinct expected
fragments are substrings of the same accumulated key, another expected
fragment is a substring of no accumulated key, and `ready()` nevertheless
returns true" is false: the per-fragment substring check already fails for
the unmatched fragment, forcing `ready()` to return false. -/
theorem readyUnmatchedFragmentImpossible :
    (∃ b : RegexBucket, b.contents.length = b.expectedKeys.length ∧
      (∃ e1 ∈ b.expectedKeys, ∃ e2 ∈ b.expectedKeys, ∃ kv ∈ b.contents,
        e1 ≠ e2 ∧ e1.toList <:+: kv.1.toList ∧ e2.toList <:+: kv.1.toList) ∧
      (∃ e3 ∈ b.expectedKeys, ∀ kv ∈ b.contents, ¬ e3.toList <:+: kv.1.toList) ∧
      bucketReady b = true) = False :=
  eq_false (by
    rintro ⟨b, hlen, ⟨e1, h1, e2, h2, kv0, hkv, hne, hi1, hi2⟩, ⟨e3, h3, hnone⟩, hready⟩
    rw [bucketReady_false_of_unmatched b hlen e1 e2 e3 kv0 h1 h2 h3 hne hkv hi1 hi2 hnone]
      at hready
    cases hready)

/-- C6 amended: the genuine weakness of `ready()` is that the fragment-to-key
correspondence need not be one-to-one.  There is a bucket state where the
accumulated-tensor count equals the expected-fragment count, `ready()` is
true, two distinct expected fragments are substrings of the same single
accumulated key, and another accumulated key contains no expected fragment at
all. -/
theorem readyOverlapWeakness :
    bucketReady overlapBucket = true ∧
      ("qq" : String) ≠ "kk" ∧
      "qq".toList <:+: "A.qq.kk".toList ∧
      "kk".toList <:+: "A.qq.kk".toList ∧
      ("A.qq.kk", tZero) ∈ overlapBucket.contents ∧
      ("zzz", tZero) ∈ overlapBucket.contents ∧
      ∀ e ∈ overlapBucket.expectedKeys, ¬ e.toList <:+: ("zzz" : String).toList := by
  refine ⟨by decide, by decide, by decide, by decide, by decide, by decide, by decide⟩

/-! ## Claims about shape/dtype validation -/

/-- C7 counterexample: replacing the parameter `enc.weight` of shape (4,4)
with a supplied tensor of shape (4,5) raises the size-mismatch error with
both shapes, but the error names the module prefix `enc`, not the key
`enc.weight`; the claim that the error names the key fails for parameter
slots. -/
theorem paramMismatchNamesModulePrefixOnly :
    emplaceModuleStateDict [("enc", encModule)] [("enc.weight", ⟨[4, 5], 0, 1⟩)] =
      .error (.sizeMismatch "enc" [4, 4] [4, 5]) ∧ ("enc" : String) ≠ "enc.weight" := by
  exact ⟨rfl, by decide⟩

/-- C7 amended: installing a replacement tensor whose shape or dtype differs
from the existing slot raises a mismatch error carrying both shapes (or both
dtypes) and aborting installation; the error names the module prefix when the
slot is a parameter and the full key `prefix.name` when the slot is a
buffer. -/
theorem tensorInstallMismatch (md : ModuleData) (modulePfx tensorName : String)
    (oldT newT : Tensor)
    (hmis : oldT.shape ≠ newT.shape ∨ oldT.dtype ≠ newT.dtype) :
    (assocFindSlot md.params tensorName = some (some oldT) →
      hasSlotNamed md.buffers tensorName = false →
      emplaceModuleTensor md modulePfx tensorName newT =
        .error (if oldT.shape ≠ newT.shape
          then .sizeMismatch modulePfx oldT.shape newT.shape
          else .dtypeMismatch modulePfx oldT.dtype newT.dtype)) ∧
    (assocFindSlot md.buffers tensorName = some (some oldT) →
      hasSlotNamed md.params tensorName = false →
      emplaceModuleTensor md modulePfx tensorName newT =
        .error (if oldT.shape ≠ newT.shape
          then .sizeMismatch (modulePfx ++ "." ++ tensorName) oldT.shape newT.shape
          else .dtypeMismatch (modulePfx ++ "." ++ tensorName) oldT.dtype newT.dtype)) := by
  constructor
  · intro hparam hbuf
    have hp : hasSlotNamed md.params tensorName = true := by
      rw [hasSlotNamed_eq_isSome, hparam]; rfl
    unfold emplaceModuleTensor defaultTensorToParameterConverter
    rw [hp, hbuf]
    simp only [Bool.true_eq_false, if_false, if_true, hparam,
      validateReplacement_mismatch oldT newT modulePfx hmis]
  · intro hbuf hparam
    have hb : hasSlotNamed md.buffers tensorName = true := by
      rw [hasSlotNamed_eq_isSome, hbuf]; rfl
    unfold emplaceModuleTensor
    rw [hparam, hb]
    simp only [Bool.false_eq_true, if_false, hbuf,
      validateReplacement_mismatch oldT newT (modulePfx ++ "." ++ tensorName) hmis]

/-- Witness for C7 amended: the (4,4) parameter replaced by a (4,5) tensor
yields the size-mismatch error naming the module prefix and both shapes. -/
theorem tensorInstallMismatchWitness :
    emplaceModuleTensor encModule "enc" "weight" ⟨[4, 5], 0, 1⟩ =
      .error (if ([4, 4] : List Nat) ≠ [4, 5]
        then .sizeMismatch "enc" [4, 4] [4, 5]
        else .dtypeMismatch "enc" 0 1) :=
  (tensorInstallMismatch encModule "enc" "weight" ⟨[4, 4], 0, 0⟩ ⟨[4, 5], 0, 1⟩
    (Or.inl (by decide))).1 (by decide) (by decide)

/-! ## Claims about bucket classification -/

theorem numMatching_eq_countP (bs : List RegexBucket) (k : String) :
    numMatching bs k = (bs.map (fun b => b.matchFn)).countP (fun f => f k) := by
  rw [numMatching, List.countP_map, ← List.countP_eq_length_filter]
  rfl

theorem insertFirstMatching_matchFn (bs : List RegexBucket) (k : String) (v : Tensor) :
    (insertFirstMatching bs k v).map (fun b => b.matchFn) = bs.map (fun b => b.matchFn) := by
  induction bs with
  | nil => rfl
  | cons b rest ih =>
    unfold insertFirstMatching
    by_cases h : b.matchFn k
    · rw [if_pos h]
      rfl
    · rw [if_neg h]
      simpa using ih

theorem classifyItem_matchFn (bs bs' : List RegexBucket)
    (dflt dflt' : List (String × Tensor)) (k : String) (v : Tensor)
    (h : classifyItem bs dflt k v = .ok (bs', dflt')) :
    bs'.map (fun b => b.matchFn) = bs.map (fun b => b.matchFn) := by
  simp only [classifyItem] at h
  split at h
  · cases h
    rfl
  · split at h
    · cases h
      exact insertFirstMatching_matchFn bs k v
    · cases h

theorem classifyItems_matchFn (items : List (String × Tensor)) :
    ∀ bs bs' : List RegexBucket, ∀ dflt dflt' : List (String × Tensor),
      classifyItems bs dflt items = .ok (bs', dflt') →
      bs'.map (fun b => b.matchFn) = bs.map (fun b => b.matchFn) := by
  induction items with
  | nil =>
    intro bs bs' dflt dflt' h
    cases h
    rfl
  | cons kv rest ih =>
    intro bs bs' dflt dflt' h
    unfold classifyItems at h
    cases hc : classifyItem bs dflt kv.1 kv.2 with
    | error e => rw [hc] at h; cases h
    | ok p =>
      rw [hc] at h
      obtain ⟨bs1, dflt1⟩ := p
      exact (ih bs1 bs' dflt1 dflt' h).trans (classifyItem_matchFn bs bs1 dflt dflt1 kv.1 kv.2 hc)

theorem classifyItems_numMatching (items : List (String × Tensor))
    (bs bs' : List RegexBucket) (dflt dflt' : List (String × Tensor)) (k : String)
    (h : classifyItems bs dflt items = .ok (bs', dflt')) :
    numMatching bs' k = numMatching bs k := by
  rw [numMatching_eq_countP, numMatching_eq_countP,
    classifyItems_matchFn items bs bs' dflt dflt' h]

theorem classifyItems_append (xs ys : List (String × Tensor)) :
    ∀ bs : List RegexBucket, ∀ dflt : List (String × Tensor),
      classifyItems bs dflt (xs ++ ys) =
        match classifyItems bs dflt xs with
        | .error e => .error e
        | .ok (bs', dflt') => classifyItems bs' dflt' ys := by
  induction xs with
  | nil => intro bs dflt; rfl
  | cons kv rest ih =>
    intro bs dflt
    have hstep : classifyItems bs dflt ((kv :: rest) ++ ys) =
        match classifyItem bs dflt kv.1 kv.2 with
        | .error e => .error e
        | .ok (bs', dflt') => classifyItems bs' dflt' (rest ++ ys) := rfl
    have hstep2 : classifyItems bs dflt (kv :: rest) =
        match classifyItem bs dflt kv.1 kv.2 with
        | .error e => .error e
        | .ok (bs', dflt') => classifyItems bs' dflt' rest := rfl
    rw [hstep, hstep2]
    cases hc : classifyItem bs dflt kv.1 kv.2 with
    | error e => rfl
    | ok p =>
      obtain ⟨bs1, dflt1⟩ := p
      show classifyItems bs1 dflt1 (rest ++ ys) =
        match classifyItems bs1 dflt1 rest with
        | .error e => .error e
        | .ok (bs', dflt') => classifyItems bs' dflt' ys
      exact ih bs1 dflt1

/-- C4: if a key matches more than one configured bucket, classification of
that (key, tensor) pair raises the configuration-conflict error carrying the
key and the match count, whatever pairs precede or follow it in the shard
(the error fires before any later pair is classified), and the surrounding
shard iteration propagates the error. -/
theorem multipleBucketMatchFatal (bs : List RegexBucket) (dflt : List (String × Tensor))
    (pre : List (String × Tensor)) (k : String) (v : Tensor) (post : List (String × Tensor))
    (bs1 : List RegexBucket) (dflt1 : List (String × Tensor))
    (hpre : classifyItems bs dflt pre = .ok (bs1, dflt1))
    (hmulti : 2 ≤ numMatching bs k) :
    classifyItems bs dflt (pre ++ (k, v) :: post) =
      .error (.multipleBuckets k (numMatching bs k)) ∧
    ∀ conv : List (String × Tensor) → List (String × Tensor), ∀ model : Model,
      ∀ seen : List String,
      processShard conv ⟨model, dflt, bs, seen⟩ (pre ++ (k, v) :: post) =
        .error (.multipleBuckets k (numMatching bs k)) := by
  have hnum : numMatching bs1 k = numMatching bs k :=
    classifyItems_numMatching pre bs bs1 dflt dflt1 k hpre
  have hitem : classifyItem bs1 dflt1 k v = .error (.multipleBuckets k (numMatching bs k)) := by
    simp only [classifyItem]
    rw [hnum, if_neg (by omega), if_neg (by omega)]
  have hcls : classifyItems bs dflt (pre ++ (k, v) :: post) =
      .error (.multipleBuckets k (numMatching bs k)) := by
    rw [classifyItems_append, hpre]
    show classifyItems bs1 dflt1 ((k, v) :: post) = _
    unfold classifyItems
    rw [hitem]
  refine ⟨hcls, fun conv model seen => ?_⟩
  unfold processShard
  rw [hcls]

/-- Witness for C4: with two buckets that both match `w`, classifying the
one-pair shard `[(w, tZero)]` fails with the conflict error for `w` and
match count 2. -/
theorem multipleBucketMatchFatalWitness :
    classifyItems [matchAllBucket, matchAllBucket] [] [("w", tZero)] =
      .error (.multipleBuckets "w" 2) ∧
    ∀ conv : List (String × Tensor) → List (String × Tensor), ∀ model : Model,
      ∀ seen : List String,
      processShard conv ⟨model, [], [matchAllBucket, matchAllBucket], seen⟩ [("w", tZero)] =
        .error (.multipleBuckets "w" 2) :=
  multipleBucketMatchFatal [matchAllBucket, matchAllBucket] [] [] "w" tZero [] _ _ rfl
    (by decide)

/-! ## Claims about the per-shard bucket processing -/

theorem processBuckets_ok_buckets
    (conv : List (String × Tensor) → List (String × Tensor)) (bs : List RegexBucket) :
    ∀ model : Model, ∀ seen : List String, ∀ m' : Model, ∀ bs' : List RegexBucket,
      ∀ seen' : List String,
      processBuckets conv model seen bs = .ok (m', bs', seen') →
      bs' = bs.map (fun b => if bucketReady b then { b with contents := [] } else b) := by
  induction bs with
  | nil =>
    intro model seen m' bs' seen' h
    cases h
    rfl
  | cons b rest ih =>
    intro model seen m' bs' seen' h
    unfold processBuckets at h
    split at h
    · next hr =>
      split at h
      · cases h
      · next x1 model1 seen1 hcv =>
        split at h
        · cases h
        · next x2 m2 rest2 s2 hpb =>
          cases h
          simp only [List.map_cons, if_pos hr]
          rw [ih model1 seen1 m' rest2 seen' hpb]
    · next hr =>
      split at h
      · cases h
      · next x2 m2 rest2 s2 hpb =>
        cases h
        simp only [List.map_cons, if_neg hr]
        rw [ih model seen m' rest2 seen' hpb]

theorem processShard_ok_decomp (conv : List (String × Tensor) → List (String × Tensor))
    (st : LoadState) (shard : List (String × Tensor)) (st' : LoadState)
    (h : processShard conv st shard = .ok st') :
    ∃ bs1 : List RegexBucket, ∃ dflt1 : List (String × Tensor), ∃ m1 : Model,
      ∃ seen1 : List String,
      classifyItems st.buckets st.defaultBucket shard = .ok (bs1, dflt1) ∧
      convertAndLoadStateDict conv st.model dflt1 st.seen = .ok (m1, seen1) ∧
      processBuckets conv m1 seen1 bs1 = .ok (st'.model, st'.buckets, st'.seen) ∧
      st'.defaultBucket = [] := by
  unfold processShard at h
  split at h
  · cases h
  · next x1 bs1 dflt1 hc =>
    split at h
    · cases h
    · next x2 m1 seen1 hcv =>
      split at h
      · cases h
      · next x3 m2 bs2 seen2 hpb =>
        cases h
        exact ⟨bs1, dflt1, m1, seen1, hc, hcv, hpb, rfl⟩

/-- C5: on a successful shard iteration, the shard's pairs are first all
classified; the default bucket is then converted-and-loaded first; afterwards
the configured buckets are processed in order, each bucket that is ready at
conversion time ending up cleared and each bucket that is not ready retained
unchanged (contents carried into the next iteration). -/
theorem shardIterationOrder (conv : List (String × Tensor) → List (String × Tensor))
    (st : LoadState) (shard : List (String × Tensor)) (st' : LoadState)
    (h : processShard conv st shard = .ok st') :
    ∃ bs1 : List RegexBucket, ∃ dflt1 : List (String × Tensor), ∃ m1 : Model,
      ∃ seen1 : List String,
      classifyItems st.buckets st.defaultBucket shard = .ok (bs1, dflt1) ∧
      convertAndLoadStateDict conv st.model dflt1 st.seen = .ok (m1, seen1) ∧
      processBuckets conv m1 seen1 bs1 = .ok (st'.model, st'.buckets, st'.seen) ∧
      st'.buckets = bs1.map (fun b => if bucketReady b then { b with contents := [] } else b) := by
  obtain ⟨bs1, dflt1, m1, seen1, hc, hcv, hpb, -⟩ := processShard_ok_decomp conv st shard st' h
  exact ⟨bs1, dflt1, m1, seen1, hc, hcv, hpb,
    processBuckets_ok_buckets conv bs1 m1 seen1 st'.model st'.buckets st'.seen hpb⟩

/-- Witness for C5 at a concrete shard iteration: one non-ready bucket
(expecting fragment `q` with nothing accumulated) is retained, and an empty
shard classifies trivially. -/
theorem shardIterationOrderWitness :
    ∃ bs1 : List RegexBucket, ∃ dflt1 : List (String × Tensor), ∃ m1 : Model,
      ∃ seen1 : List String,
      classifyItems [⟨fun _ => true, ["q"], []⟩] [] [] = .ok (bs1, dflt1) ∧
      convertAndLoadStateDict (fun _ => []) [] dflt1 [] = .ok (m1, seen1) ∧
      processBuckets (fun _ => []) m1 seen1 bs1 =
        .ok ((⟨[], [], [⟨fun _ => true, ["q"], []⟩], []⟩ : LoadState).model,
             (⟨[], [], [⟨fun _ => true, ["q"], []⟩], []⟩ : LoadState).buckets,
             (⟨[], [], [⟨fun _ => true, ["q"], []⟩], []⟩ : LoadState).seen) ∧
      (⟨[], [], [⟨fun _ => true, ["q"], []⟩], []⟩ : LoadState).buckets =
        bs1.map (fun b => if bucketReady b then { b with contents := [] } else b) :=
  shardIterationOrder (fun _ => []) ⟨[], [], [⟨fun _ => true, ["q"], []⟩], []⟩ []
    ⟨[], [], [⟨fun _ => true, ["q"], []⟩], []⟩ rfl

/-- C10: on a successful shard iteration the default bucket ends empty and
every configured bucket that was ready at conversion time ends empty; and
whenever the converter returns an empty mapping, the convert-and-load step
returns the model and the seen-keys set unchanged, so the cleared bucket's
accumulated tensors are discarded without being recorded or installed. -/
theorem shardEndBucketsEmpty (conv : List (String × Tensor) → List (String × Tensor))
    (st : LoadState) (shard : List (String × Tensor)) (st' : LoadState)
    (h : processShard conv st shard = .ok st') :
    st'.defaultBucket = [] ∧
    (∃ bs1 : List RegexBucket, ∃ dflt1 : List (String × Tensor),
      classifyItems st.buckets st.defaultBucket shard = .ok (bs1, dflt1) ∧
      st'.buckets.length = bs1.length ∧
      ∀ i : Nat, ∀ hi : i < bs1.length, ∀ hi' : i < st'.buckets.length,
        bucketReady (bs1.get ⟨i, hi⟩) = true →
        (st'.buckets.get ⟨i, hi'⟩).contents = []) ∧
    (∀ sd : List (String × Tensor), conv sd = [] → ∀ model : Model, ∀ seen : List String,
      convertAndLoadStateDict conv model sd seen = .ok (model, seen)) := by
  obtain ⟨bs1, dflt1, m1, seen1, hc, hcv, hpb, hdflt⟩ := processShard_ok_decomp conv st shard st' h
  have hmap := processBuckets_ok_buckets conv bs1 m1 seen1 st'.model st'.buckets st'.seen hpb
  refine ⟨hdflt, ?_, ?_⟩
  · refine ⟨bs1, dflt1, hc, ?_, ?_⟩
    · rw [hmap, List.length_map]
    · intro i hi hi' hready
      have hget := List.get_of_eq hmap ⟨i, hi'⟩
      rw [hget]
      simp only [List.get_eq_getElem] at hready ⊢
      simp only [Fin.cast, List.getElem_map]
      rw [if_pos hready]
  · intro sd hsd model seen
    unfold convertAndLoadStateDict
    rw [hsd]
    rfl

/-- Witness for C10: a shard iteration with one ready bucket (no expected
fragments, nothing accumulated) whose conversion returns the empty mapping. -/
theorem shardEndBucketsEmptyWitness :
    (⟨[], [], [⟨fun _ => true, [], []⟩], []⟩ : LoadState).defaultBucket = [] ∧
    (∃ bs1 : List RegexBucket, ∃ dflt1 : List (String × Tensor),
      classifyItems [⟨fun _ => true, [], []⟩] [] [] = .ok (bs1, dflt1) ∧
      (⟨[], [], [⟨fun _ => true, [], []⟩], []⟩ : LoadState).buckets.length = bs1.length ∧
      ∀ i : Nat, ∀ hi : i < bs1.length,
        ∀ hi' : i < (⟨[], [], [⟨fun _ => true, [], []⟩], []⟩ : LoadState).buckets.length,
        bucketReady (bs1.get ⟨i, hi⟩) = true →
        ((⟨[], [], [⟨fun _ => true, [], []⟩], []⟩ : LoadState).buckets.get ⟨i, hi'⟩).contents = []) ∧
    (∀ sd : List (String × Tensor), (fun _ : List (String × Tensor) => ([] : List (String × Tensor))) sd = [] →
      ∀ model : Model, ∀ seen : List String,
      convertAndLoadStateDict (fun _ => []) model sd seen = .ok (model, seen)) :=
  shardEndBucketsEmpty (fun _ => []) ⟨[], [], [⟨fun _ => true, [], []⟩], []⟩ []
    ⟨[], [], [⟨fun _ => true, [], []⟩], []⟩ rfl

/-! ## Claim about the final coverage checks -/

theorem seenContains_iff (l : List String) (a : String) : l.contains a = true ↔ a ∈ l :=
  List.elem_iff

/-- C2: once the shard loop has consumed every shard, the load raises the
missing-keys error (listing the missing keys) whenever some pre-load snapshot
key is absent from the seen-keys set; when every snapshot key was seen but
some configured bucket still holds tensors it raises the incomplete-bucket
error; and it returns the final model exactly when neither condition holds. -/
theorem loadFinalChecks (model : Model) (shards : List (List (String × Tensor)))
    (buckets : List RegexBucket) (conv : List (String × Tensor) → List (String × Tensor))
    (final : LoadState)
    (h : processShards conv ⟨model, [], buckets, []⟩ shards = .ok final) :
    ((∃ k ∈ stateDictKeys model, k ∉ final.seen) →
      loadModelFromCheckpoints model shards buckets conv =
        .error (.missingKeys
          ((stateDictKeys model).filter (fun k => !(final.seen.contains k))))) ∧
    ((∀ k ∈ stateDictKeys model, k ∈ final.seen) →
      (∃ b ∈ final.buckets, b.contents ≠ []) →
      loadModelFromCheckpoints model shards buckets conv = .error .bucketsNotEmpty) ∧
    ((∀ k ∈ stateDictKeys model, k ∈ final.seen) →
      (∀ b ∈ final.buckets, b.contents = []) →
      loadModelFromCheckpoints model shards buckets conv = .ok final.model) := by
  refine ⟨?_, ?_, ?_⟩
  · rintro ⟨k, hk, hkn⟩
    have hcf : final.seen.contains k = false := by
      rw [Bool.eq_false_iff]
      intro hc
      exact hkn ((seenContains_iff final.seen k).mp hc)
    have hne : ((stateDictKeys model).filter (fun k => !(final.seen.contains k))).length ≠ 0 := by
      intro h0
      rw [List.length_eq_zero, List.filter_eq_nil_iff] at h0
      exact h0 k hk (by simpa using hkn)
    simp only [loadModelFromCheckpoints, h]
    rw [if_pos hne]
  · intro hall ⟨b, hb, hbne⟩
    have hz : ((stateDictKeys model).filter (fun k => !(final.seen.contains k))).length = 0 := by
      rw [List.length_eq_zero, List.filter_eq_nil_iff]
      intro a ha
      simpa using hall a ha
    have hany : final.buckets.any (fun b => b.contents.length ≠ 0) = true := by
      rw [List.any_eq_true]
      refine ⟨b, hb, ?_⟩
      simp only [decide_eq_true_eq]
      intro h0
      exact hbne (List.length_eq_zero.mp h0)
    simp only [loadModelFromCheckpoints, h]
    rw [if_neg (by simpa using hz), if_pos hany]
  · intro hall hbempty
    have hz : ((stateDictKeys model).filter (fun k => !(final.seen.contains k))).length = 0 := by
      rw [List.length_eq_zero, List.filter_eq_nil_iff]
      intro a ha
      simpa using hall a ha
    have hany : final.buckets.any (fun b => b.contents.length ≠ 0) = false := by
      rw [Bool.eq_false_iff]
      intro hc
      rw [List.any_eq_true] at hc
      obtain ⟨b, hb, hbl⟩ := hc
      simp only [decide_eq_true_eq] at hbl
      exact hbl (by rw [hbempty b hb]; rfl)
    simp only [loadModelFromCheckpoints, h]
    rw [if_neg (by simpa using hz), if_neg (by simp only [hany]; exact Bool.false_ne_true)]

/-- Witness for C2 on the empty load: no snapshot keys, no buckets, the load
returns the (empty) model. -/
theorem loadFinalChecksWitness :
    loadModelFromCheckpoints [] [] [] (fun _ => []) =
      .ok ((⟨[], [], [], []⟩ : LoadState).model) :=
  (loadFinalChecks [] [] [] (fun _ => []) ⟨[], [], [], []⟩ rfl).2.2
    (fun k hk => absurd hk (List.not_mem_nil k))
    (fun b hb => absurd hb (List.not_mem_nil b))

/-! ## Claims about orphaned converted keys -/

theorem assocFind_eq_none (d : List (String × Tensor)) (k : String)
    (h : ∀ kv ∈ d, kv.1 ≠ k) : assocFind d k = none := by
  induction d with
  | nil => rfl
  | cons kv rest ih =>
    unfold assocFind
    rw [if_neg (h kv (List.mem_cons_self kv rest))]
    exact ih (fun kv' hkv' => h kv' (List.mem_cons_of_mem kv hkv'))

theorem installSlots_no_hits (modulePfx : String) (candidates : List (String × Tensor))
    (md : ModuleData) (slots : List (String × Option Tensor))
    (h : ∀ nv ∈ slots, assocFind candidates (modulePfx ++ "." ++ nv.1) = none) :
    installSlots modulePfx candidates md slots = .ok md := by
  induction slots generalizing md with
  | nil => rfl
  | cons nv rest ih =>
    unfold installSlots
    rw [h nv (List.mem_cons_self nv rest)]
    exact ih md (fun nv' h' => h nv' (List.mem_cons_of_mem nv h'))

theorem addBuffers_sub (np : List String) (modulePfx : String)
    (bufs : List (String × Option Tensor)) :
    ∀ acc res : List (String × Option Tensor),
      addBuffers np modulePfx acc bufs = .ok res →
      ∀ nv ∈ res, nv ∈ acc ∨ (nv ∈ bufs ∧ nv.1 ∉ np) := by
  induction bufs with
  | nil =>
    intro acc res h nv hnv
    cases h
    exact Or.inl hnv
  | cons nb rest ih =>
    intro acc res h nv hnv
    unfold addBuffers at h
    split at h
    · cases h
    · split at h
      · rcases ih acc res h nv hnv with ha | ⟨hb, hnp⟩
        · exact Or.inl ha
        · exact Or.inr ⟨List.mem_cons_of_mem nb hb, hnp⟩
      · next hmem =>
        rcases ih (acc ++ [nb]) res h nv hnv with ha | ⟨hb, hnp⟩
        · rcases List.mem_append.mp ha with h1 | h2
          · exact Or.inl h1
          · have heq : nv = nb := by simpa using h2
            refine Or.inr ⟨by rw [heq]; exact List.mem_cons_self nb rest, ?_⟩
            rw [heq]
            exact hmem
        · exact Or.inr ⟨List.mem_cons_of_mem nb hb, hnp⟩

theorem applyModule_orphan (modulePfx : String) (md : ModuleData)
    (sd : List (String × Tensor))
    (hcol : (addBuffers md.nonPersistent modulePfx md.params md.buffers).isOk = true)
    (hmiss : ∀ kv ∈ sd, kv.1 ∉ consideredKeysOfModule modulePfx md) :
    applyModule modulePfx md sd = .ok md := by
  simp only [applyModule]
  split
  · rfl
  · cases hab : addBuffers md.nonPersistent modulePfx md.params md.buffers with
    | error e => rw [hab] at hcol; cases hcol
    | ok slots =>
      show installSlots modulePfx
        (sd.filter (fun kv => strStartsWith (modulePfx ++ ".") kv.1)) md slots = .ok md
      refine installSlots_no_hits modulePfx _ md slots (fun nv hnv => ?_)
      have hkey : (modulePfx ++ "." ++ nv.1) ∈ consideredKeysOfModule modulePfx md := by
        rcases addBuffers_sub md.nonPersistent modulePfx md.buffers md.params slots hab nv hnv
          with hp | ⟨hb, hnp⟩
        · exact List.mem_append_left _ (List.mem_map_of_mem _ hp)
        · refine List.mem_append_right _ (List.mem_map_of_mem _ ?_)
          rw [List.mem_filter]
          exact ⟨hb, by simpa using hnp⟩
      refine assocFind_eq_none _ _ (fun kv hkv => ?_)
      have hsd : kv ∈ sd := (List.mem_filter.mp hkv).1
      intro heq
      exact hmiss kv hsd (heq ▸ hkey)

theorem emplaceModuleStateDict_orphan (sd : List (String × Tensor)) (model : Model)
    (hcol : ∀ pm ∈ model,
      (addBuffers pm.2.nonPersistent pm.1 pm.2.params pm.2.buffers).isOk = true)
    (hmiss : ∀ kv ∈ sd, ∀ pm ∈ model, kv.1 ∉ consideredKeysOfModule pm.1 pm.2) :
    emplaceModuleStateDict model sd = .ok model := by
  induction model with
  | nil => rfl
  | cons pm rest ih =>
    unfold emplaceModuleStateDict
    rw [applyModule_orphan pm.1 pm.2 sd (hcol pm (List.mem_cons_self pm rest))
      (fun kv hkv => hmiss kv hkv pm (List.mem_cons_self pm rest))]
    rw [ih (fun pm' h' => hcol pm' (List.mem_cons_of_mem pm h'))
      (fun kv hkv pm' h' => hmiss kv hkv pm' (List.mem_cons_of_mem pm h'))]

theorem mem_seenInsert_left (seen : List String) (k a : String) (h : a ∈ seen) :
    a ∈ seenInsert seen k := by
  unfold seenInsert
  split
  · exact h
  · exact List.mem_append_left _ h

theorem mem_seenInsert_self (seen : List String) (k : String) : k ∈ seenInsert seen k := by
  unfold seenInsert
  split
  · assumption
  · simp

theorem mem_seenUpdate_left (ks : List String) :
    ∀ seen : List String, ∀ a ∈ seen, a ∈ seenUpdate seen ks := by
  induction ks with
  | nil => intro seen a h; exact h
  | cons k rest ih =>
    intro seen a h
    exact ih (seenInsert seen k) a (mem_seenInsert_left seen k a h)

theorem mem_seenUpdate_right (ks : List String) :
    ∀ seen : List String, ∀ a ∈ ks, a ∈ seenUpdate seen ks := by
  induction ks with
  | nil => intro seen a h; cases h
  | cons k rest ih =>
    intro seen a h
    rcases List.mem_cons.mp h with rfl | h'
    · exact mem_seenUpdate_left rest (seenInsert seen a) a (mem_seenInsert_self seen a)
    · exact ih (seenInsert seen k) a h'

/-- C9: for a nonempty converted batch whose keys all correspond to no
existing parameter or persistent-buffer slot of any module, the
convert-and-load step raises no error and mutates no module, yet every
converted key is recorded into the seen-keys set (and previously seen keys
remain), so such keys never by themselves make the load fail. -/
theorem orphanKeysNeverFail (conv : List (String × Tensor) → List (String × Tensor))
    (model : Model) (sd : List (String × Tensor)) (seen : List String)
    (hne : conv sd ≠ [])
    (hcol : ∀ pm ∈ model,
      (addBuffers pm.2.nonPersistent pm.1 pm.2.params pm.2.buffers).isOk = true)
    (horph : ∀ kv ∈ conv sd, ∀ pm ∈ model, kv.1 ∉ consideredKeysOfModule pm.1 pm.2) :
    convertAndLoadStateDict conv model sd seen =
      .ok (model, seenUpdate seen ((conv sd).map Prod.fst)) ∧
    (∀ kv ∈ conv sd, kv.1 ∈ seenUpdate seen ((conv sd).map Prod.fst)) ∧
    (∀ k ∈ seen, k ∈ seenUpdate seen ((conv sd).map Prod.fst)) := by
  refine ⟨?_, ?_, ?_⟩
  · simp only [convertAndLoadStateDict]
    rw [if_neg (by simpa using hne)]
    rw [emplaceModuleStateDict_orphan (conv sd) model hcol horph]
  · intro kv hkv
    exact mem_seenUpdate_right _ seen kv.1 (List.mem_map_of_mem Prod.fst hkv)
  · intro k hk
    exact mem_seenUpdate_left _ seen k hk

/-- Witness for C9 at a concrete model and converter: the converted key
`zz.orphan` hits no slot of the `bn` module, installation is a no-op, and the
key lands in seen-keys. -/
theorem orphanKeysNeverFailWitness :
    convertAndLoadStateDict (fun _ => [("zz.orphan", tZero)]) [("bn", bnModule)] [] [] =
      .ok ([("bn", bnModule)],
        seenUpdate [] (((fun _ : List (String × Tensor) => [("zz.orphan", tZero)]) []).map
          Prod.fst)) ∧
    (∀ kv ∈ (fun _ : List (String × Tensor) => [("zz.orphan", tZero)]) [],
      kv.1 ∈ seenUpdate []
        (((fun _ : List (String × Tensor) => [("zz.orphan", tZero)]) []).map Prod.fst)) ∧
    (∀ k ∈ ([] : List String),
      k ∈ seenUpdate []
        (((fun _ : List (String × Tensor) => [("zz.orphan", tZero)]) []).map Prod.fst)) :=
  orphanKeysNeverFail (fun _ => [("zz.orphan", tZero)]) [("bn", bnModule)] [] []
    (by decide) (by decide) (by decide)

/-- C1 counterexample: in a destination model whose module `bn` has the
single non-persistent buffer `running_count`, supplying the fully-qualified
key `bn.running_count` in a converted batch raises no error whatsoever —
installation returns the model unchanged — so in particular it does not
raise an orphaned-key error naming that key (no such error exists in the
loader). -/
theorem nonPersistentKeyNoOrphanError :
    emplaceModuleStateDict [("bn", bnModule)] [("bn.running_count", tZero)] =
      .ok [("bn", bnModule)] ∧
    ∀ e : LoadError,
      emplaceModuleStateDict [("bn", bnModule)] [("bn.running_count", tZero)] ≠ .error e := by
  refine ⟨rfl, fun e h => ?_⟩
  rw [show emplaceModuleStateDict [("bn", bnModule)] [("bn.running_count", tZero)] =
    .ok [("bn", bnModule)] from rfl] at h
  cases h

/-- C1 amended: supplying a non-persistent buffer's fully-qualified key in a
converted batch raises no error at installation: non-persistent buffers are
excluded from the considered slots, so as long as the key names no other
considered slot, installation silently skips it and returns the model
unchanged (the loader has no orphaned-key error; the key is nevertheless
recorded in seen-keys by the surrounding convert-and-load step). -/
theorem nonPersistentBufferKeySilentlyIgnored (model : Model) (pm : String × ModuleData)
    (bufName : String) (t : Tensor)
    (_hpm : pm ∈ model) (_hnp : bufName ∈ pm.2.nonPersistent)
    (hcol : ∀ qm ∈ model,
      (addBuffers qm.2.nonPersistent qm.1 qm.2.params qm.2.buffers).isOk = true)
    (horph : ∀ qm ∈ model, (pm.1 ++ "." ++ bufName) ∉ consideredKeysOfModule qm.1 qm.2) :
    emplaceModuleStateDict model [(pm.1 ++ "." ++ bufName, t)] = .ok model := by
  refine emplaceModuleStateDict_orphan _ model hcol (fun kv hkv qm hqm => ?_)
  have heq : kv = (pm.1 ++ "." ++ bufName, t) := by simpa using hkv
  rw [heq]
  exact horph qm hqm

/-- Witness for C1 amended at the concrete `bn.running_count` model. -/
theorem nonPersistentBufferKeySilentlyIgnoredWitness :
    emplaceModuleStateDict [("bn", bnModule)] [("bn" ++ "." ++ "running_count", ⟨[2], 1, 5⟩)] =
      .ok [("bn", bnModule)] :=
  nonPersistentBufferKeySilentlyIgnored [("bn", bnModule)] ("bn", bnModule) "running_count"
    ⟨[2], 1, 5⟩ (by decide) (by decide) (by decide) (by decide)

/-! ## Infrastructure for the shard-split equivalence -/

theorem assocFind_eq_none_iff (d : List (String × Tensor)) (k : String) :
    assocFind d k = none ↔ ∀ kv ∈ d, kv.1 ≠ k := by
  induction d with
  | nil => simp [assocFind]
  | cons kv rest ih =>
    unfold assocFind
    by_cases h : kv.1 = k
    · simp [h]
    · simp [h, ih]

theorem assocFindSlot_eq_none_iff (d : List (String × Option Tensor)) (k : String) :
    assocFindSlot d k = none ↔ ∀ kv ∈ d, kv.1 ≠ k := by
  induction d with
  | nil => simp [assocFindSlot]
  | cons kv rest ih =>
    unfold assocFindSlot
    by_cases h : kv.1 = k
    · simp [h]
    · simp [h, ih]

theorem assocFind_cons (kv : String × Tensor) (rest : List (String × Tensor)) (k : String) :
    assocFind (kv :: rest) k = if kv.1 = k then some kv.2 else assocFind rest k := rfl

theorem assocFindSlot_cons (kv : String × Option Tensor) (rest : List (String × Option Tensor))
    (k : String) :
    assocFindSlot (kv :: rest) k = if kv.1 = k then some kv.2 else assocFindSlot rest k := rfl

theorem updateSlot_cons (kv : String × Option Tensor) (rest : List (String × Option Tensor))
    (k : String) (v : Tensor) :
    updateSlot (kv :: rest) k v =
      if kv.1 = k then (kv.1, some v) :: updateSlot rest k v
      else kv :: updateSlot rest k v := rfl

theorem assocFind_append (d1 d2 : List (String × Tensor)) (k : String) :
    assocFind (d1 ++ d2) k =
      match assocFind d1 k with
      | some v => some v
      | none => assocFind d2 k := by
  induction d1 with
  | nil => rfl
  | cons kv rest ih =>
    show assocFind (kv :: (rest ++ d2)) k = _
    rw [assocFind_cons, assocFind_cons]
    by_cases h : kv.1 = k
    · rw [if_pos h, if_pos h]
    · rw [if_neg h, if_neg h]
      exact ih

theorem assocFind_filter_none (d : List (String × Tensor)) (p : String × Tensor → Bool)
    (k : String) (h : assocFind d k = none) : assocFind (d.filter p) k = none := by
  rw [assocFind_eq_none_iff] at h ⊢
  exact fun kv hkv => h kv (List.mem_filter.mp hkv).1

theorem updateSlot_map_fst (d : List (String × Option Tensor)) (k : String) (v : Tensor) :
    (updateSlot d k v).map Prod.fst = d.map Prod.fst := by
  induction d with
  | nil => rfl
  | cons kv rest ih =>
    rw [updateSlot_cons]
    by_cases h : kv.1 = k
    · simp [h, ih]
    · simp [h, ih]

theorem assocFindSlot_updateSlot_ne (d : List (String × Option Tensor)) (k m : String)
    (v : Tensor) (h : m ≠ k) : assocFindSlot (updateSlot d k v) m = assocFindSlot d m := by
  induction d with
  | nil => rfl
  | cons kv rest ih =>
    rw [updateSlot_cons]
    by_cases hk : kv.1 = k
    · rw [if_pos hk, assocFindSlot_cons, assocFindSlot_cons]
      by_cases hm : kv.1 = m
      · exact absurd (hm.symm.trans hk) h
      · rw [if_neg hm, if_neg hm]
        exact ih
    · rw [if_neg hk, assocFindSlot_cons, assocFindSlot_cons]
      by_cases hm : kv.1 = m
      · rw [if_pos hm, if_pos hm]
      · rw [if_neg hm, if_neg hm]
        exact ih

theorem updateSlot_comm (d : List (String × Option Tensor)) (k1 k2 : String)
    (v1 v2 : Tensor) (h : k1 ≠ k2) :
    updateSlot (updateSlot d k1 v1) k2 v2 = updateSlot (updateSlot d k2 v2) k1 v1 := by
  induction d with
  | nil => rfl
  | cons kv rest ih =>
    by_cases h1 : kv.1 = k1 <;> by_cases h2 : kv.1 = k2
    · exact absurd (h1.symm.trans h2) h
    · simp only [updateSlot, if_pos h1, if_neg h2]
      simp only [updateSlot, if_pos h1, if_neg h2, ih]
    · simp only [updateSlot, if_neg h1, if_pos h2]
      simp only [updateSlot, if_neg h1, if_pos h2, ih]
    · simp only [updateSlot, if_neg h1, if_neg h2]
      simp only [updateSlot, if_neg h1, if_neg h2, ih]

theorem hasSlotNamed_iff_mem (d : List (String × Option Tensor)) (k : String) :
    hasSlotNamed d k = true ↔ k ∈ d.map Prod.fst := by
  induction d with
  | nil => simp [hasSlotNamed]
  | cons kv rest ih =>
    unfold hasSlotNamed
    by_cases h : kv.1 = k
    · simp [h]
    · simp [h, ih, Ne.symm h]

theorem emplaceModuleTensor_param_eq (md : ModuleData) (pfx n : String) (v oldT : Tensor)
    (hp : assocFindSlot md.params n = some (some oldT))
    (hb : assocFindSlot md.buffers n = none) :
    emplaceModuleTensor md pfx n v =
      match validateReplacement oldT v pfx with
      | .error e => .error e
      | .ok _ => .ok { md with params := updateSlot md.params n v } := by
  have h1 : hasSlotNamed md.params n = true := by
    rw [hasSlotNamed_eq_isSome, hp]
    rfl
  have h2 : hasSlotNamed md.buffers n = false := by
    rw [hasSlotNamed_eq_isSome, hb]
    rfl
  simp only [emplaceModuleTensor, h1, h2, Bool.true_eq_false, Bool.false_eq_true,
    eq_self_iff_true, if_true, if_false]
  simp only [defaultTensorToParameterConverter, hp]
  cases validateReplacement oldT v pfx with
  | error e => rfl
  | ok u => rfl

theorem emplaceModuleTensor_buffer_eq (md : ModuleData) (pfx n : String) (v oldT : Tensor)
    (hp : assocFindSlot md.params n = none)
    (hb : assocFindSlot md.buffers n = some (some oldT)) :
    emplaceModuleTensor md pfx n v =
      match validateReplacement oldT v (pfx ++ "." ++ n) with
      | .error e => .error e
      | .ok _ => .ok { md with buffers := updateSlot md.buffers n v } := by
  have h1 : hasSlotNamed md.params n = false := by
    rw [hasSlotNamed_eq_isSome, hp]
    rfl
  have h2 : hasSlotNamed md.buffers n = true := by
    rw [hasSlotNamed_eq_isSome, hb]
    rfl
  simp only [emplaceModuleTensor, h1, h2, Bool.true_eq_false, Bool.false_eq_true,
    eq_self_iff_true, if_true, if_false, hb]

theorem emplaceModuleTensor_bothNone (md : ModuleData) (pfx n : String) (v : Tensor)
    (hp : assocFindSlot md.params n = none) (hb : assocFindSlot md.buffers n = none) :
    emplaceModuleTensor md pfx n v = .error .assertionFailed := by
  have h1 : hasSlotNamed md.params n = false := by
    rw [hasSlotNamed_eq_isSome, hp]
    rfl
  have h2 : hasSlotNamed md.buffers n = false := by
    rw [hasSlotNamed_eq_isSome, hb]
    rfl
  simp only [emplaceModuleTensor, h1, h2, Bool.true_eq_false, Bool.false_eq_true,
    eq_self_iff_true, if_true, if_false]

theorem emplaceModuleTensor_bothSome (md : ModuleData) (pfx n : String) (v : Tensor)
    (op ob : Option Tensor)
    (hp : assocFindSlot md.params n = some op) (hb : assocFindSlot md.buffers n = some ob) :
    emplaceModuleTensor md pfx n v = .error .assertionFailed := by
  have h1 : hasSlotNamed md.params n = true := by
    rw [hasSlotNamed_eq_isSome, hp]
    rfl
  have h2 : hasSlotNamed md.buffers n = true := by
    rw [hasSlotNamed_eq_isSome, hb]
    rfl
  simp only [emplaceModuleTensor, h1, h2, Bool.true_eq_false, Bool.false_eq_true,
    eq_self_iff_true, if_true, if_false]

theorem emplaceModuleTensor_paramNone (md : ModuleData) (pfx n : String) (v : Tensor)
    (hp : assocFindSlot md.params n = some none)
    (hb : assocFindSlot md.buffers n = none) :
    emplaceModuleTensor md pfx n v = .error .assertionFailed := by
  have h1 : hasSlotNamed md.params n = true := by
    rw [hasSlotNamed_eq_isSome, hp]
    rfl
  have h2 : hasSlotNamed md.buffers n = false := by
    rw [hasSlotNamed_eq_isSome, hb]
    rfl
  simp only [emplaceModuleTensor, h1, h2, Bool.true_eq_false, Bool.false_eq_true,
    eq_self_iff_true, if_true, if_false]
  simp only [defaultTensorToParameterConverter, hp]

theorem emplaceModuleTensor_bufferNone (md : ModuleData) (pfx n : String) (v : Tensor)
    (hp : assocFindSlot md.params n = none)
    (hb : assocFindSlot md.buffers n = some none) :
    emplaceModuleTensor md pfx n v = .error .assertionFailed := by
  have h1 : hasSlotNamed md.params n = false := by
    rw [hasSlotNamed_eq_isSome, hp]
    rfl
  have h2 : hasSlotNamed md.buffers n = true := by
    rw [hasSlotNamed_eq_isSome, hb]
    rfl
  simp only [emplaceModuleTensor, h1, h2, Bool.true_eq_false, Bool.false_eq_true,
    eq_self_iff_true, if_true, if_false, hb]

theorem emplaceModuleTensor_ok_inv (md md' : ModuleData) (pfx n : String) (v : Tensor)
    (h : emplaceModuleTensor md pfx n v = .ok md') :
    (∃ oldT, assocFindSlot md.params n = some (some oldT) ∧
      assocFindSlot md.buffers n = none ∧
      validateReplacement oldT v pfx = .ok () ∧
      md' = { md with params := updateSlot md.params n v }) ∨
    (∃ oldT, assocFindSlot md.buffers n = some (some oldT) ∧
      assocFindSlot md.params n = none ∧
      validateReplacement oldT v (pfx ++ "." ++ n) = .ok () ∧
      md' = { md with buffers := updateSlot md.buffers n v }) := by
  cases hp : assocFindSlot md.params n with
  | none =>
    cases hb : assocFindSlot md.buffers n with
    | none => rw [emplaceModuleTensor_bothNone md pfx n v hp hb] at h; cases h
    | some ob =>
      cases ob with
      | none => rw [emplaceModuleTensor_bufferNone md pfx n v hp hb] at h; cases h
      | some oldT =>
        rw [emplaceModuleTensor_buffer_eq md pfx n v oldT hp hb] at h
        cases hv : validateReplacement oldT v (pfx ++ "." ++ n) with
        | error e => rw [hv] at h; cases h
        | ok u =>
          rw [hv] at h
          cases h
          exact Or.inr ⟨oldT, rfl, rfl, by rw [hv], rfl⟩
  | some op =>
    cases hb : assocFindSlot md.buffers n with
    | some ob => rw [emplaceModuleTensor_bothSome md pfx n v op ob hp hb] at h; cases h
    | none =>
      cases op with
      | none => rw [emplaceModuleTensor_paramNone md pfx n v hp hb] at h; cases h
      | some oldT =>
        rw [emplaceModuleTensor_param_eq md pfx n v oldT hp hb] at h
        cases hv : validateReplacement oldT v pfx with
        | error e => rw [hv] at h; cases h
        | ok u =>
          rw [hv] at h
          cases h
          exact Or.inl ⟨oldT, rfl, rfl, by rw [hv], rfl⟩

theorem installSlots_cons (pfx : String) (candidates : List (String × Tensor))
    (md : ModuleData) (nv : String × Option Tensor) (rest : List (String × Option Tensor)) :
    installSlots pfx candidates md (nv :: rest) =
      match assocFind candidates (pfx ++ "." ++ nv.1) with
      | none => installSlots pfx candidates md rest
      | some replacement =>
        match nv.2 with
        | none => .error (.noData nv.1 pfx)
        | some _ =>
          match emplaceModuleTensor md pfx nv.1 replacement with
          | .error e => .error e
          | .ok md' => installSlots pfx candidates md' rest := rfl

theorem emplace_comm_ok (md md1 md12 : ModuleData) (pfx n1 n2 : String) (v1 v2 : Tensor)
    (hne : n1 ≠ n2)
    (h1 : emplaceModuleTensor md pfx n1 v1 = .ok md1)
    (h2 : emplaceModuleTensor md1 pfx n2 v2 = .ok md12) :
    ∃ md2, emplaceModuleTensor md pfx n2 v2 = .ok md2 ∧
      emplaceModuleTensor md2 pfx n1 v1 = .ok md12 := by
  have hne2 : n2 ≠ n1 := Ne.symm hne
  rcases emplaceModuleTensor_ok_inv md md1 pfx n1 v1 h1 with
    ⟨o1, hp1, hb1, hv1, rfl⟩ | ⟨o1, hb1, hp1, hv1, rfl⟩
  · rcases emplaceModuleTensor_ok_inv _ md12 pfx n2 v2 h2 with
      ⟨o2, hp2, hb2, hv2, rfl⟩ | ⟨o2, hb2, hp2, hv2, rfl⟩
    · have hp2' : assocFindSlot md.params n2 = some (some o2) := by
        rw [← assocFindSlot_updateSlot_ne md.params n1 n2 v1 hne2]
        exact hp2
      have hb2' : assocFindSlot md.buffers n2 = none := hb2
      refine ⟨{ md with params := updateSlot md.params n2 v2 }, ?_, ?_⟩
      · rw [emplaceModuleTensor_param_eq md pfx n2 v2 o2 hp2' hb2', hv2]
      · have hp1' : assocFindSlot
            ({ md with params := updateSlot md.params n2 v2 } : ModuleData).params n1 =
            some (some o1) := by
          show assocFindSlot (updateSlot md.params n2 v2) n1 = some (some o1)
          rw [assocFindSlot_updateSlot_ne md.params n2 n1 v2 hne]
          exact hp1
        rw [emplaceModuleTensor_param_eq { md with params := updateSlot md.params n2 v2 }
          pfx n1 v1 o1 hp1' hb1, hv1]
        simp only [updateSlot_comm md.params n2 n1 v2 v1 hne2]
    · have hb2' : assocFindSlot md.buffers n2 = some (some o2) := hb2
      have hp2' : assocFindSlot md.params n2 = none := by
        rw [← assocFindSlot_updateSlot_ne md.params n1 n2 v1 hne2]
        exact hp2
      refine ⟨{ md with buffers := updateSlot md.buffers n2 v2 }, ?_, ?_⟩
      · rw [emplaceModuleTensor_buffer_eq md pfx n2 v2 o2 hp2' hb2', hv2]
      · have hb1' : assocFindSlot
            ({ md with buffers := updateSlot md.buffers n2 v2 } : ModuleData).buffers n1 =
            none := by
          show assocFindSlot (updateSlot md.buffers n2 v2) n1 = none
          rw [assocFindSlot_updateSlot_ne md.buffers n2 n1 v2 hne]
          exact hb1
        rw [emplaceModuleTensor_param_eq
          { md with buffers := updateSlot md.buffers n2 v2 } pfx n1 v1 o1 hp1 hb1', hv1]
  · rcases emplaceModuleTensor_ok_inv _ md12 pfx n2 v2 h2 with
      ⟨o2, hp2, hb2, hv2, rfl⟩ | ⟨o2, hb2, hp2, hv2, rfl⟩
    · have hp2' : assocFindSlot md.params n2 = some (some o2) := hp2
      have hb2' : assocFindSlot md.buffers n2 = none := by
        rw [← assocFindSlot_updateSlot_ne md.buffers n1 n2 v1 hne2]
        exact hb2
      refine ⟨{ md with params := updateSlot md.params n2 v2 }, ?_, ?_⟩
      · rw [emplaceModuleTensor_param_eq md pfx n2 v2 o2 hp2' hb2', hv2]
      · have hp1' : assocFindSlot
            ({ md with params := updateSlot md.params n2 v2 } : ModuleData).params n1 =
            none := by
          show assocFindSlot (updateSlot md.params n2 v2) n1 = none
          rw [assocFindSlot_updateSlot_ne md.params n2 n1 v2 hne]
          exact hp1
        rw [emplaceModuleTensor_buffer_eq
          { md with params := updateSlot md.params n2 v2 } pfx n1 v1 o1 hp1' hb1, hv1]
    · have hb2' : assocFindSlot md.buffers n2 = some (some o2) := by
        rw [← assocFindSlot_updateSlot_ne md.buffers n1 n2 v1 hne2]
        exact hb2
      have hp2' : assocFindSlot md.params n2 = none := hp2
      refine ⟨{ md with buffers := updateSlot md.buffers n2 v2 }, ?_, ?_⟩
      · rw [emplaceModuleTensor_buffer_eq md pfx n2 v2 o2 hp2' hb2', hv2]
      · have hb1' : assocFindSlot
            ({ md with buffers := updateSlot md.buffers n2 v2 } : ModuleData).buffers n1 =
            some (some o1) := by
          show assocFindSlot (updateSlot md.buffers n2 v2) n1 = some (some o1)
          rw [assocFindSlot_updateSlot_ne md.buffers n2 n1 v2 hne]
          exact hb1
        rw [emplaceModuleTensor_buffer_eq { md with buffers := updateSlot md.buffers n2 v2 }
          pfx n1 v1 o1 hp1 hb1', hv1]
        simp only [updateSlot_comm md.buffers n2 n1 v2 v1 hne2]

theorem installSlots_emplace_swap (pfx : String) (d : List (String × Tensor))
    (rest : List (String × Option Tensor)) (n : String) (v : Tensor) :
    ∀ md md1 mdX : ModuleData,
      (∀ mv ∈ rest, mv.1 ≠ n) →
      emplaceModuleTensor md pfx n v = .ok md1 →
      installSlots pfx d md1 rest = .ok mdX →
      ∃ md2, installSlots pfx d md rest = .ok md2 ∧
        emplaceModuleTensor md2 pfx n v = .ok mdX := by
  induction rest with
  | nil =>
    intro md md1 mdX _ h1 h2
    cases h2
    exact ⟨md, rfl, h1⟩
  | cons mv rest' ih =>
    intro md md1 mdX hn h1 h2
    cases hf : assocFind d (pfx ++ "." ++ mv.1) with
    | none =>
      simp only [installSlots_cons, hf] at h2
      obtain ⟨md2, q1, q2⟩ :=
        ih md md1 mdX (fun x hx => hn x (List.mem_cons_of_mem mv hx)) h1 h2
      refine ⟨md2, ?_, q2⟩
      simp only [installSlots_cons, hf]
      exact q1
    | some w =>
      simp only [installSlots_cons, hf] at h2
      cases hv2 : mv.2 with
      | none =>
        simp only [hv2] at h2
        cases h2
      | some t =>
        simp only [hv2] at h2
        cases he : emplaceModuleTensor md1 pfx mv.1 w with
        | error e =>
          simp only [he] at h2
          cases h2
        | ok md1' =>
          simp only [he] at h2
          obtain ⟨mdb, hq1, hq2⟩ := emplace_comm_ok md md1 md1' pfx n mv.1 v w
            (Ne.symm (hn mv (List.mem_cons_self mv rest'))) h1 he
          obtain ⟨md2, q1, q2⟩ :=
            ih mdb md1' mdX (fun x hx => hn x (List.mem_cons_of_mem mv hx)) hq2 h2
          refine ⟨md2, ?_, q2⟩
          simp only [installSlots_cons, hf, hv2, hq1]
          exact q1

theorem installSlots_append_split (pfx : String) (d1 d2 : List (String × Tensor))
    (hdisj : ∀ k : String, assocFind d1 k = none ∨ assocFind d2 k = none) :
    ∀ slots : List (String × Option Tensor), ∀ md mdF : ModuleData,
      (slots.map Prod.fst).Nodup →
      installSlots pfx (d1 ++ d2) md slots = .ok mdF →
      ∃ mdA, installSlots pfx d1 md slots = .ok mdA ∧
        installSlots pfx d2 mdA slots = .ok mdF := by
  intro slots
  induction slots with
  | nil =>
    intro md mdF _ h
    cases h
    exact ⟨md, rfl, rfl⟩
  | cons nv rest ih =>
    intro md mdF hnodup h
    have hnodup' : (rest.map Prod.fst).Nodup :=
      (List.nodup_cons.mp (by simpa using hnodup)).2
    have hnotin : ∀ mv ∈ rest, mv.1 ≠ nv.1 := by
      intro mv hmv heq
      have hmem : nv.1 ∈ rest.map Prod.fst := heq ▸ List.mem_map_of_mem Prod.fst hmv
      exact (List.nodup_cons.mp (by simpa using hnodup)).1 hmem
    cases h1f : assocFind d1 (pfx ++ "." ++ nv.1) with
    | some w =>
      have hcomb : assocFind (d1 ++ d2) (pfx ++ "." ++ nv.1) = some w := by
        simp only [assocFind_append, h1f]
      have h2f : assocFind d2 (pfx ++ "." ++ nv.1) = none :=
        (hdisj (pfx ++ "." ++ nv.1)).resolve_left (by simp [h1f])
      simp only [installSlots_cons, hcomb] at h
      cases hv : nv.2 with
      | none =>
        simp only [hv] at h
        cases h
      | some t =>
        simp only [hv] at h
        cases he : emplaceModuleTensor md pfx nv.1 w with
        | error e =>
          simp only [he] at h
          cases h
        | ok md1 =>
          simp only [he] at h
          obtain ⟨mdA, p1, p2⟩ := ih md1 mdF hnodup' h
          refine ⟨mdA, ?_, ?_⟩
          · simp only [installSlots_cons, h1f, hv, he]
            exact p1
          · simp only [installSlots_cons, h2f]
            exact p2
    | none =>
      cases h2f : assocFind d2 (pfx ++ "." ++ nv.1) with
      | some w =>
        have hcomb : assocFind (d1 ++ d2) (pfx ++ "." ++ nv.1) = some w := by
          simp only [assocFind_append, h1f, h2f]
        simp only [installSlots_cons, hcomb] at h
        cases hv : nv.2 with
        | none =>
          simp only [hv] at h
          cases h
        | some t =>
          simp only [hv] at h
          cases he : emplaceModuleTensor md pfx nv.1 w with
          | error e =>
            simp only [he] at h
            cases h
          | ok md1 =>
            simp only [he] at h
            obtain ⟨mdA', p1, p2⟩ := ih md1 mdF hnodup' h
            obtain ⟨mdB, q1, q2⟩ :=
              installSlots_emplace_swap pfx d1 rest nv.1 w md md1 mdA' hnotin he p1
            refine ⟨mdB, ?_, ?_⟩
            · simp only [installSlots_cons, h1f]
              exact q1
            · simp only [installSlots_cons, h2f, hv, q2]
              exact p2
      | none =>
        have hcomb : assocFind (d1 ++ d2) (pfx ++ "." ++ nv.1) = none := by
          simp only [assocFind_append, h1f, h2f]
        simp only [installSlots_cons, hcomb] at h
        obtain ⟨mdA, p1, p2⟩ := ih md mdF hnodup' h
        refine ⟨mdA, ?_, ?_⟩
        · simp only [installSlots_cons, h1f]
          exact p1
        · simp only [installSlots_cons, h2f]
          exact p2

theorem assocFindSlot_not_mem_none (d : List (String × Option Tensor)) (k : String)
    (h : k ∉ d.map Prod.fst) : assocFindSlot d k = none := by
  rw [assocFindSlot_eq_none_iff]
  intro kv hkv heq
  exact h (heq ▸ List.mem_map_of_mem Prod.fst hkv)

theorem installSlots_preserves (pfx : String) (d : List (String × Tensor)) :
    ∀ slots : List (String × Option Tensor), ∀ md md' : ModuleData,
      installSlots pfx d md slots = .ok md' →
      md'.params.map Prod.fst = md.params.map Prod.fst ∧
      md'.buffers.map Prod.fst = md.buffers.map Prod.fst ∧
      md'.nonPersistent = md.nonPersistent ∧
      ∀ n : String, assocFind d (pfx ++ "." ++ n) = none →
        assocFindSlot md'.params n = assocFindSlot md.params n ∧
        assocFindSlot md'.buffers n = assocFindSlot md.buffers n := by
  intro slots
  induction slots with
  | nil =>
    intro md md' h
    cases h
    exact ⟨rfl, rfl, rfl, fun n _ => ⟨rfl, rfl⟩⟩
  | cons nv rest ih =>
    intro md md' h
    cases hf : assocFind d (pfx ++ "." ++ nv.1) with
    | none =>
      simp only [installSlots_cons, hf] at h
      exact ih md md' h
    | some w =>
      simp only [installSlots_cons, hf] at h
      cases hv : nv.2 with
      | none =>
        simp only [hv] at h
        cases h
      | some t =>
        simp only [hv] at h
        cases he : emplaceModuleTensor md pfx nv.1 w with
        | error e =>
          simp only [he] at h
          cases h
        | ok md1 =>
          simp only [he] at h
          obtain ⟨hp, hb, hnp, hreads⟩ := ih md1 md' h
          have hne : ∀ n : String, assocFind d (pfx ++ "." ++ n) = none → n ≠ nv.1 := by
            intro n hn heq
            rw [heq, hf] at hn
            cases hn
          rcases emplaceModuleTensor_ok_inv md md1 pfx nv.1 w he with
            ⟨o, -, -, -, rfl⟩ | ⟨o, -, -, -, rfl⟩
          · refine ⟨hp.trans (updateSlot_map_fst md.params nv.1 w), hb, hnp, fun n hn => ?_⟩
            obtain ⟨hr1, hr2⟩ := hreads n hn
            exact ⟨hr1.trans (assocFindSlot_updateSlot_ne md.params nv.1 n w (hne n hn)), hr2⟩
          · refine ⟨hp, hb.trans (updateSlot_map_fst md.buffers nv.1 w), hnp, fun n hn => ?_⟩
            obtain ⟨hr1, hr2⟩ := hreads n hn
            exact ⟨hr1, hr2.trans (assocFindSlot_updateSlot_ne md.buffers nv.1 n w (hne n hn))⟩

theorem installSlots_congr (pfx : String) (d : List (String × Tensor))
    (slotsA slotsB : List (String × Option Tensor))
    (hrel : List.Forall₂ (fun a b => a.1 = b.1 ∧
      (assocFind d (pfx ++ "." ++ b.1) ≠ none → a.2.isSome = b.2.isSome)) slotsA slotsB) :
    ∀ md : ModuleData, installSlots pfx d md slotsA = installSlots pfx d md slotsB := by
  induction hrel with
  | nil => intro md; rfl
  | @cons a b asl bsl hab hrest ih =>
    intro md
    obtain ⟨hname, hsome⟩ := hab
    rw [installSlots_cons, installSlots_cons, hname]
    cases hf : assocFind d (pfx ++ "." ++ b.1) with
    | none => exact ih md
    | some w =>
      have hs := hsome (by simp [hf])
      cases hvb : b.2 with
      | none =>
        have hva : a.2 = none := by
          cases hva : a.2 with
          | none => rfl
          | some ta => simp [hva, hvb] at hs
        rw [hva]
      | some tb =>
        cases hva : a.2 with
        | none => simp [hva, hvb] at hs
        | some ta =>
          show (match emplaceModuleTensor md pfx b.1 w with
              | Except.error e => (Except.error e : Except LoadError ModuleData)
              | Except.ok md' => installSlots pfx d md' asl) =
            (match emplaceModuleTensor md pfx b.1 w with
              | Except.error e => Except.error e
              | Except.ok md' => installSlots pfx d md' bsl)
          cases emplaceModuleTensor md pfx b.1 w with
          | error e => rfl
          | ok md1 => exact ih md1

theorem forall₂_map_fst {R : (String × Option Tensor) → (String × Option Tensor) → Prop}
    (hRname : ∀ a b, R a b → a.1 = b.1) :
    ∀ dA dB : List (String × Option Tensor), List.Forall₂ R dA dB →
      dA.map Prod.fst = dB.map Prod.fst := by
  intro dA dB h
  induction h with
  | nil => rfl
  | cons hab hrest ih => simp [hRname _ _ hab, ih]

theorem hasSlotNamed_congr_names (dA dB : List (String × Option Tensor)) (k : String)
    (h : dA.map Prod.fst = dB.map Prod.fst) : hasSlotNamed dA k = hasSlotNamed dB k := by
  by_cases hmem : k ∈ dB.map Prod.fst
  · rw [(hasSlotNamed_iff_mem dA k).mpr (h ▸ hmem), (hasSlotNamed_iff_mem dB k).mpr hmem]
  · have hA : hasSlotNamed dA k = false := by
      rw [Bool.eq_false_iff]
      intro hc
      exact hmem (h ▸ (hasSlotNamed_iff_mem dA k).mp hc)
    have hB : hasSlotNamed dB k = false := by
      rw [Bool.eq_false_iff]
      intro hc
      exact hmem ((hasSlotNamed_iff_mem dB k).mp hc)
    rw [hA, hB]

theorem slots_rel_of_reads (P : String → Prop) :
    ∀ dA dB : List (String × Option Tensor),
      dA.map Prod.fst = dB.map Prod.fst →
      (dB.map Prod.fst).Nodup →
      (∀ n, P n → assocFindSlot dA n = assocFindSlot dB n) →
      List.Forall₂ (fun a b => a.1 = b.1 ∧ (P b.1 → a.2 = b.2)) dA dB := by
  intro dA
  induction dA with
  | nil =>
    intro dB hmap _ _
    cases dB with
    | nil => exact List.Forall₂.nil
    | cons b bs => cases hmap
  | cons a asl ih =>
    intro dB hmap hnodup hval
    cases dB with
    | nil => cases hmap
    | cons b bs =>
      simp only [List.map_cons] at hmap
      injection hmap with hname hmaps
      have hnotin : b.1 ∉ bs.map Prod.fst :=
        (List.nodup_cons.mp hnodup).1
      refine List.Forall₂.cons ⟨hname, fun hP => ?_⟩ (ih bs hmaps (List.nodup_cons.mp hnodup).2
        (fun n hPn => ?_))
      · have := hval b.1 hP
        rw [assocFindSlot_cons, assocFindSlot_cons, if_pos hname, if_pos rfl] at this
        exact Option.some.inj this
      · by_cases hb1 : n = b.1
        · rw [hb1, assocFindSlot_not_mem_none asl b.1 (by rw [hmaps]; exact hnotin),
            assocFindSlot_not_mem_none bs b.1 hnotin]
        · have := hval n hPn
          rw [assocFindSlot_cons, assocFindSlot_cons,
            if_neg (by rw [hname]; exact fun hc => hb1 hc.symm),
            if_neg (fun hc => hb1 hc.symm)] at this
          exact this

theorem addBuffers_cons (np : List String) (pfx : String)
    (acc : List (String × Option Tensor)) (nb : String × Option Tensor)
    (rest : List (String × Option Tensor)) :
    addBuffers np pfx acc (nb :: rest) =
      if hasSlotNamed acc nb.1 then .error (.paramAndBuffer nb.1 pfx)
      else if nb.1 ∈ np then addBuffers np pfx acc rest
      else addBuffers np pfx (acc ++ [nb]) rest := rfl

theorem addBuffers_nodup (np : List String) (pfx : String) :
    ∀ bufs acc res : List (String × Option Tensor),
      (acc.map Prod.fst).Nodup →
      addBuffers np pfx acc bufs = .ok res → (res.map Prod.fst).Nodup := by
  intro bufs
  induction bufs with
  | nil =>
    intro acc res hacc h
    cases h
    exact hacc
  | cons nb rest ih =>
    intro acc res hacc h
    rw [addBuffers_cons] at h
    by_cases hs : hasSlotNamed acc nb.1
    · rw [if_pos hs] at h
      cases h
    · rw [if_neg hs] at h
      by_cases hnp : nb.1 ∈ np
      · rw [if_pos hnp] at h
        exact ih acc res hacc h
      · rw [if_neg hnp] at h
        refine ih (acc ++ [nb]) res ?_ h
        rw [List.map_append]
        refine List.Nodup.append hacc (by simp) ?_
        intro x hx hx2
        have hxe : x = nb.1 := by simpa using hx2
        exact absurd ((hasSlotNamed_iff_mem acc nb.1).mpr (hxe ▸ hx)) hs

theorem addBuffers_congr (np : List String) (pfx : String)
    (R : (String × Option Tensor) → (String × Option Tensor) → Prop)
    (hRname : ∀ a b, R a b → a.1 = b.1) :
    ∀ bufsA bufsB : List (String × Option Tensor),
      List.Forall₂ R bufsA bufsB →
      ∀ accA accB resA : List (String × Option Tensor),
        List.Forall₂ R accA accB →
        addBuffers np pfx accA bufsA = .ok resA →
        ∃ resB, addBuffers np pfx accB bufsB = .ok resB ∧ List.Forall₂ R resA resB := by
  intro bufsA bufsB hbufs
  induction hbufs with
  | nil =>
    intro accA accB resA hacc h
    cases h
    exact ⟨accB, rfl, hacc⟩
  | @cons a b asl bsl hab hrest ih =>
    intro accA accB resA hacc h
    have hname := hRname a b hab
    have hslot : hasSlotNamed accA a.1 = hasSlotNamed accB b.1 := by
      rw [hname]
      exact hasSlotNamed_congr_names accA accB b.1 (forall₂_map_fst hRname accA accB hacc)
    rw [addBuffers_cons] at h
    by_cases hs : hasSlotNamed accA a.1
    · rw [if_pos hs] at h
      cases h
    · rw [if_neg hs] at h
      have hsB : ¬ hasSlotNamed accB b.1 = true := by
        rw [← hslot]
        exact hs
      by_cases hnp : a.1 ∈ np
      · rw [if_pos hnp] at h
        obtain ⟨resB, hB, hrel⟩ := ih accA accB resA hacc h
        refine ⟨resB, ?_, hrel⟩
        rw [addBuffers_cons, if_neg hsB, if_pos (hname ▸ hnp)]
        exact hB
      · rw [if_neg hnp] at h
        obtain ⟨resB, hB, hrel⟩ :=
          ih (accA ++ [a]) (accB ++ [b]) resA
            (List.rel_append hacc (List.Forall₂.cons hab List.Forall₂.nil)) h
        refine ⟨resB, ?_, hrel⟩
        rw [addBuffers_cons, if_neg hsB, if_neg (fun hc => hnp (hname ▸ hc))]
        exact hB

theorem forall₂_flip_imp {α β : Type} {R : α → β → Prop} {S : β → α → Prop}
    {lA : List α} {lB : List β} (hrel : List.Forall₂ R lA lB)
    (h : ∀ a b, R a b → S b a) : List.Forall₂ S lB lA := by
  induction hrel with
  | nil => exact List.Forall₂.nil
  | cons hab hrest ih => exact List.Forall₂.cons (h _ _ hab) ih

theorem applyModule_eq (pfx : String) (md : ModuleData) (sd : List (String × Tensor)) :
    applyModule pfx md sd =
      if (sd.filter (fun kv => strStartsWith (pfx ++ ".") kv.1)).length = 0 then .ok md
      else
        match addBuffers md.nonPersistent pfx md.params md.buffers with
        | .error e => .error e
        | .ok slots =>
          installSlots pfx (sd.filter (fun kv => strStartsWith (pfx ++ ".") kv.1)) md slots :=
  rfl

theorem applyModule_append_split (pfx : String) (md mdF : ModuleData)
    (c1 c2 : List (String × Tensor))
    (hpn : (md.params.map Prod.fst).Nodup) (hbn : (md.buffers.map Prod.fst).Nodup)
    (hdisj : ∀ k : String, assocFind c1 k = none ∨ assocFind c2 k = none)
    (h : applyModule pfx md (c1 ++ c2) = .ok mdF) :
    ∃ mdA, applyModule pfx md c1 = .ok mdA ∧ applyModule pfx mdA c2 = .ok mdF := by
  rw [applyModule_eq, List.filter_append] at h
  by_cases h1 : c1.filter (fun kv => strStartsWith (pfx ++ ".") kv.1) = []
  · by_cases h2 : c2.filter (fun kv => strStartsWith (pfx ++ ".") kv.1) = []
    · rw [h1, h2] at h
      simp only [List.nil_append, List.length_nil] at h
      rw [if_pos trivial] at h
      cases h
      refine ⟨md, ?_, ?_⟩
      · rw [applyModule_eq, h1]
        rfl
      · rw [applyModule_eq, h2]
        rfl
    · rw [h1, List.nil_append] at h
      refine ⟨md, ?_, ?_⟩
      · rw [applyModule_eq, h1]
        rfl
      · rw [applyModule_eq]
        exact h
  · by_cases h2 : c2.filter (fun kv => strStartsWith (pfx ++ ".") kv.1) = []
    · rw [h2, List.append_nil] at h
      refine ⟨mdF, ?_, ?_⟩
      · rw [applyModule_eq]
        exact h
      · rw [applyModule_eq, h2]
        rfl
    · have hlen : ¬ ((c1.filter (fun kv => strStartsWith (pfx ++ ".") kv.1)) ++
          (c2.filter (fun kv => strStartsWith (pfx ++ ".") kv.1))).length = 0 := by
        intro hc
        rcases List.append_eq_nil.mp (List.length_eq_zero.mp hc) with ⟨ha, -⟩
        exact h1 ha
      rw [if_neg hlen] at h
      cases hab : addBuffers md.nonPersistent pfx md.params md.buffers with
      | error e =>
        simp only [hab] at h
        cases h
      | ok slots =>
        simp only [hab] at h
        have hdisjf : ∀ k : String,
            assocFind (c1.filter (fun kv => strStartsWith (pfx ++ ".") kv.1)) k = none ∨
            assocFind (c2.filter (fun kv => strStartsWith (pfx ++ ".") kv.1)) k = none :=
          fun k => (hdisj k).imp (assocFind_filter_none c1 _ k) (assocFind_filter_none c2 _ k)
        have hslotsnd : (slots.map Prod.fst).Nodup :=
          addBuffers_nodup md.nonPersistent pfx md.buffers md.params slots hpn hab
        obtain ⟨mdI, p1, p2⟩ := installSlots_append_split pfx _ _ hdisjf slots md mdF hslotsnd h
        have hne1 : ¬ ((c1.filter (fun kv => strStartsWith (pfx ++ ".") kv.1)).length = 0) := by
          simpa [List.length_eq_zero] using h1
        have hne2 : ¬ ((c2.filter (fun kv => strStartsWith (pfx ++ ".") kv.1)).length = 0) := by
          simpa [List.length_eq_zero] using h2
        refine ⟨mdI, ?_, ?_⟩
        · rw [applyModule_eq, if_neg hne1]
          simp only [hab]
          exact p1
        · rw [applyModule_eq, if_neg hne2]
          obtain ⟨hpm, hbm, hnpm, hreads⟩ := installSlots_preserves pfx _ slots md mdI p1
          have hvalP : ∀ n : String,
              (assocFind (c2.filter (fun kv => strStartsWith (pfx ++ ".") kv.1))
                (pfx ++ "." ++ n) ≠ none) →
              assocFindSlot md.params n = assocFindSlot mdI.params n := by
            intro n hn
            rcases hdisjf (pfx ++ "." ++ n) with hna | hna
            · exact (hreads n hna).1.symm
            · exact absurd hna hn
          have hvalB : ∀ n : String,
              (assocFind (c2.filter (fun kv => strStartsWith (pfx ++ ".") kv.1))
                (pfx ++ "." ++ n) ≠ none) →
              assocFindSlot md.buffers n = assocFindSlot mdI.buffers n := by
            intro n hn
            rcases hdisjf (pfx ++ "." ++ n) with hna | hna
            · exact (hreads n hna).2.symm
            · exact absurd hna hn
          have hrelP := slots_rel_of_reads
            (fun n => assocFind (c2.filter (fun kv => strStartsWith (pfx ++ ".") kv.1))
              (pfx ++ "." ++ n) ≠ none)
            md.params mdI.params hpm.symm (by rw [hpm]; exact hpn) hvalP
          have hrelB := slots_rel_of_reads
            (fun n => assocFind (c2.filter (fun kv => strStartsWith (pfx ++ ".") kv.1))
              (pfx ++ "." ++ n) ≠ none)
            md.buffers mdI.buffers hbm.symm (by rw [hbm]; exact hbn) hvalB
          obtain ⟨slots2, hab2, hrelS⟩ := addBuffers_congr md.nonPersistent pfx
            (fun a b => a.1 = b.1 ∧
              (assocFind (c2.filter (fun kv => strStartsWith (pfx ++ ".") kv.1))
                (pfx ++ "." ++ b.1) ≠ none → a.2 = b.2))
            (fun a b hr => hr.1) md.buffers mdI.buffers hrelB md.params mdI.params slots
            hrelP hab
          have hrelS' : List.Forall₂ (fun a b => a.1 = b.1 ∧
              (assocFind (c2.filter (fun kv => strStartsWith (pfx ++ ".") kv.1))
                (pfx ++ "." ++ b.1) ≠ none → a.2.isSome = b.2.isSome)) slots2 slots := by
            refine forall₂_flip_imp hrelS (fun a b hr => ⟨hr.1.symm, fun hhit => ?_⟩)
            rw [hr.2 (hr.1 ▸ hhit)]
          simp only [hnpm, hab2]
          rw [installSlots_congr pfx _ slots2 slots hrelS' mdI]
          exact p2

theorem emplaceModuleStateDict_cons (pm : String × ModuleData) (rest : Model)
    (sd : List (String × Tensor)) :
    emplaceModuleStateDict (pm :: rest) sd =
      match applyModule pm.1 pm.2 sd with
      | .error e => .error e
      | .ok md' =>
        match emplaceModuleStateDict rest sd with
        | .error e => .error e
        | .ok rest' => .ok ((pm.1, md') :: rest') := rfl

theorem emplace_append_split (c1 c2 : List (String × Tensor))
    (hdisj : ∀ k : String, assocFind c1 k = none ∨ assocFind c2 k = none) :
    ∀ model mF : Model,
      (∀ pm ∈ model, (pm.2.params.map Prod.fst).Nodup ∧ (pm.2.buffers.map Prod.fst).Nodup) →
      emplaceModuleStateDict model (c1 ++ c2) = .ok mF →
      ∃ mA, emplaceModuleStateDict model c1 = .ok mA ∧
        emplaceModuleStateDict mA c2 = .ok mF := by
  intro model
  induction model with
  | nil =>
    intro mF _ h
    cases h
    exact ⟨[], rfl, rfl⟩
  | cons pm rest ih =>
    intro mF hnd h
    rw [emplaceModuleStateDict_cons] at h
    cases ha : applyModule pm.1 pm.2 (c1 ++ c2) with
    | error e =>
      simp only [ha] at h
      cases h
    | ok mdF =>
      simp only [ha] at h
      cases hr : emplaceModuleStateDict rest (c1 ++ c2) with
      | error e =>
        simp only [hr] at h
        cases h
      | ok restF =>
        simp only [hr] at h
        cases h
        obtain ⟨hnd1, hnd2⟩ := hnd pm (List.mem_cons_self pm rest)
        obtain ⟨mdA, q1, q2⟩ := applyModule_append_split pm.1 pm.2 mdF c1 c2 hnd1 hnd2 hdisj ha
        obtain ⟨restA, r1, r2⟩ :=
          ih restF (fun qm hqm => hnd qm (List.mem_cons_of_mem pm hqm)) hr
        refine ⟨(pm.1, mdA) :: restA, ?_, ?_⟩
        · rw [emplaceModuleStateDict_cons]
          simp only [q1, r1]
        · rw [emplaceModuleStateDict_cons]
          simp only [q2, r2]

theorem assocFind_none_of_not_mem_keys (d : List (String × Tensor)) (k : String)
    (h : k ∉ d.map Prod.fst) : assocFind d k = none := by
  rw [assocFind_eq_none_iff]
  intro kv hkv heq
  exact h (heq ▸ List.mem_map_of_mem Prod.fst hkv)

theorem mem_keys_of_assocFind_ne_none (d : List (String × Tensor)) (k : String)
    (h : assocFind d k ≠ none) : k ∈ d.map Prod.fst := by
  by_contra hmem
  exact h (assocFind_none_of_not_mem_keys d k hmem)

theorem dictInsertT_append (d : List (String × Tensor)) (k : String) (v : Tensor)
    (h : ∀ kv ∈ d, kv.1 ≠ k) : dictInsertT d k v = d ++ [(k, v)] := by
  unfold dictInsertT
  rw [if_neg ?hc]
  case hc =>
    rw [List.any_eq_true]
    rintro ⟨p, hp, hpk⟩
    exact h p hp (by simpa using hpk)

theorem classifyItems_cons (bs : List RegexBucket) (dflt : List (String × Tensor))
    (kv : String × Tensor) (rest : List (String × Tensor)) :
    classifyItems bs dflt (kv :: rest) =
      match classifyItem bs dflt kv.1 kv.2 with
      | .error e => .error e
      | .ok (bs', dflt') => classifyItems bs' dflt' rest := rfl

theorem classifyItems_nomatch (bs : List RegexBucket) :
    ∀ items dflt : List (String × Tensor),
      (∀ kv ∈ items, numMatching bs kv.1 = 0) →
      (items.map Prod.fst).Nodup →
      (∀ kv ∈ items, ∀ dv ∈ dflt, dv.1 ≠ kv.1) →
      classifyItems bs dflt items = .ok (bs, dflt ++ items) := by
  intro items
  induction items with
  | nil =>
    intro dflt _ _ _
    rw [List.append_nil]
    rfl
  | cons kv rest ih =>
    intro dflt hnm hnd hdis
    have h0 : numMatching bs kv.1 = 0 := hnm kv (List.mem_cons_self kv rest)
    have hcl : classifyItem bs dflt kv.1 kv.2 = .ok (bs, dictInsertT dflt kv.1 kv.2) := by
      simp only [classifyItem]
      rw [h0, if_pos rfl]
    have hins : dictInsertT dflt kv.1 kv.2 = dflt ++ [(kv.1, kv.2)] :=
      dictInsertT_append dflt kv.1 kv.2
        (fun dv hdv => hdis kv (List.mem_cons_self kv rest) dv hdv)
    rw [classifyItems_cons, hcl, hins]
    have hnotin : kv.1 ∉ rest.map Prod.fst := by
      have := hnd
      rw [List.map_cons] at this
      exact (List.nodup_cons.mp this).1
    have hrec := ih (dflt ++ [(kv.1, kv.2)])
      (fun kv' hkv' => hnm kv' (List.mem_cons_of_mem kv hkv'))
      (by
        rw [List.map_cons] at hnd
        exact (List.nodup_cons.mp hnd).2)
      (by
        intro kv' hkv' dv hdv
        rcases List.mem_append.mp hdv with hdl | hdr
        · exact hdis kv' (List.mem_cons_of_mem kv hkv') dv hdl
        · have hdv1 : dv = (kv.1, kv.2) := by simpa using hdr
          rw [hdv1]
          intro heq
          exact hnotin (heq ▸ List.mem_map_of_mem Prod.fst hkv'))
    show classifyItems bs (dflt ++ [(kv.1, kv.2)]) rest = _
    rw [hrec]
    rw [List.append_assoc]
    rfl

theorem convertAndLoad_eq (conv : List (String × Tensor) → List (String × Tensor))
    (model : Model) (sd : List (String × Tensor)) (seen : List String) :
    convertAndLoadStateDict conv model sd seen =
      if (conv sd).length = 0 then .ok (model, seen)
      else
        match emplaceModuleStateDict model (conv sd) with
        | .error e => .error e
        | .ok model' => .ok (model', seenUpdate seen ((conv sd).map Prod.fst)) := rfl

theorem convertAndLoad_congr (conv : List (String × Tensor) → List (String × Tensor))
    (model : Model) (seen : List String) (sdA sdB : List (String × Tensor))
    (h : conv sdA = conv sdB) :
    convertAndLoadStateDict conv model sdA seen = convertAndLoadStateDict conv model sdB seen := by
  rw [convertAndLoad_eq, convertAndLoad_eq, h]

theorem bucket_clear_eq_self (b : RegexBucket) (h : b.contents = []) :
    { b with contents := [] } = b := by
  cases b
  simp_all

theorem processBuckets_cons (conv : List (String × Tensor) → List (String × Tensor))
    (model : Model) (seen : List String) (b : RegexBucket) (rest : List RegexBucket) :
    processBuckets conv model seen (b :: rest) =
      if bucketReady b then
        match convertAndLoadStateDict conv model b.contents seen with
        | .error e => .error e
        | .ok (model', seen') =>
          match processBuckets conv model' seen' rest with
          | .error e => .error e
          | .ok (m, rest2, s) => .ok (m, { b with contents := [] } :: rest2, s)
      else
        match processBuckets conv model seen rest with
        | .error e => .error e
        | .ok (m, rest2, s) => .ok (m, b :: rest2, s) := rfl

theorem processBuckets_empty_buckets (conv : List (String × Tensor) → List (String × Tensor))
    (hconvnil : conv [] = []) :
    ∀ bs : List RegexBucket, (∀ b ∈ bs, b.contents = []) →
      ∀ model : Model, ∀ seen : List String,
        processBuckets conv model seen bs = .ok (model, bs, seen) := by
  intro bs
  induction bs with
  | nil => intro _ model seen; rfl
  | cons b rest ih =>
    intro hb model seen
    have hbc : b.contents = [] := hb b (List.mem_cons_self b rest)
    have hcal : convertAndLoadStateDict conv model b.contents seen = .ok (model, seen) := by
      rw [hbc, convertAndLoad_eq, hconvnil]
      rw [if_pos (show ([] : List (String × Tensor)).length = 0 from rfl)]
    rw [processBuckets_cons]
    by_cases hr : bucketReady b
    · rw [if_pos hr, hcal]
      show (match processBuckets conv model seen rest with
        | Except.error e => (Except.error e : Except LoadError (Model × List RegexBucket × List String))
        | Except.ok (m, rest2, s) => Except.ok (m, { b with contents := [] } :: rest2, s)) =
        Except.ok (model, b :: rest, seen)
      rw [ih (fun b' hb' => hb b' (List.mem_cons_of_mem b hb')) model seen,
        bucket_clear_eq_self b hbc]
    · rw [if_neg hr, ih (fun b' hb' => hb b' (List.mem_cons_of_mem b hb')) model seen]

theorem seenUpdate_append (a b : List String) :
    ∀ seen : List String, seenUpdate seen (a ++ b) = seenUpdate (seenUpdate seen a) b := by
  induction a with
  | nil => intro seen; rfl
  | cons k rest ih => intro seen; exact ih (seenInsert seen k)

theorem processShard_eq (conv : List (String × Tensor) → List (String × Tensor))
    (st : LoadState) (shard : List (String × Tensor)) :
    processShard conv st shard =
      match classifyItems st.buckets st.defaultBucket shard with
      | .error e => .error e
      | .ok (bs1, dflt1) =>
        match convertAndLoadStateDict conv st.model dflt1 st.seen with
        | .error e => .error e
        | .ok (m1, seen1) =>
          match processBuckets conv m1 seen1 bs1 with
          | .error e => .error e
          | .ok (m2, bs2, seen2) => .ok ⟨m2, [], bs2, seen2⟩ := rfl

theorem processShards_cons (conv : List (String × Tensor) → List (String × Tensor))
    (st : LoadState) (shard : List (String × Tensor)) (rest : List (List (String × Tensor))) :
    processShards conv st (shard :: rest) =
      match processShard conv st shard with
      | .error e => .error e
      | .ok st' => processShards conv st' rest := rfl

theorem processShard_default_only (conv : List (String × Tensor) → List (String × Tensor))
    (buckets : List RegexBucket)
    (hconvnil : conv [] = [])
    (hbempty : ∀ b ∈ buckets, b.contents = [])
    (mdl : Model) (seen : List String) (shard : List (String × Tensor))
    (hnm : ∀ kv ∈ shard, numMatching buckets kv.1 = 0)
    (hnd : (shard.map Prod.fst).Nodup) :
    processShard conv ⟨mdl, [], buckets, seen⟩ shard =
      match convertAndLoadStateDict conv mdl shard seen with
      | .error e => .error e
      | .ok p => .ok ⟨p.1, [], buckets, p.2⟩ := by
  rw [processShard_eq]
  show (match classifyItems buckets [] shard with
    | Except.error e => (Except.error e : Except LoadError LoadState)
    | Except.ok (bs1, dflt1) =>
      match convertAndLoadStateDict conv mdl dflt1 seen with
      | Except.error e => Except.error e
      | Except.ok (m1, seen1) =>
        match processBuckets conv m1 seen1 bs1 with
        | Except.error e => Except.error e
        | Except.ok (m2, bs2, seen2) => Except.ok ⟨m2, [], bs2, seen2⟩) =
    (match convertAndLoadStateDict conv mdl shard seen with
    | Except.error e => Except.error e
    | Except.ok p => Except.ok ⟨p.1, [], buckets, p.2⟩)
  rw [classifyItems_nomatch buckets shard [] hnm hnd
    (fun kv _ dv hdv => absurd hdv (List.not_mem_nil dv))]
  show (match convertAndLoadStateDict conv mdl ([] ++ shard) seen with
    | Except.error e => (Except.error e : Except LoadError LoadState)
    | Except.ok (m1, seen1) =>
      match processBuckets conv m1 seen1 buckets with
      | Except.error e => Except.error e
      | Except.ok (m2, bs2, seen2) => Except.ok ⟨m2, [], bs2, seen2⟩) = _
  rw [List.nil_append]
  cases hcal : convertAndLoadStateDict conv mdl shard seen with
  | error e => rfl
  | ok p =>
    show (match processBuckets conv p.1 p.2 buckets with
      | Except.error e => (Except.error e : Except LoadError LoadState)
      | Except.ok (m2, bs2, seen2) => Except.ok ⟨m2, [], bs2, seen2⟩) = _
    rw [processBuckets_empty_buckets conv hconvnil buckets hbempty p.1 p.2]

theorem load_eq (model : Model) (shards : List (List (String × Tensor)))
    (buckets : List RegexBucket) (conv : List (String × Tensor) → List (String × Tensor)) :
    loadModelFromCheckpoints model shards buckets conv =
      match processShards conv ⟨model, [], buckets, []⟩ shards with
      | .error e => .error e
      | .ok final =>
        if ((stateDictKeys model).filter (fun k => !(final.seen.contains k))).length ≠ 0 then
          .error (.missingKeys
            ((stateDictKeys model).filter (fun k => !(final.seen.contains k))))
        else if final.buckets.any (fun b => b.contents.length ≠ 0) then
          .error .bucketsNotEmpty
        else .ok final.model := rfl

/-- C8: for every set of default-bucket keys (keys matching no configured
bucket) and every pure key-wise state-dict converter, loading from two shard
files whose key sets partition the set succeeds with exactly the same final
result as loading from one shard file containing all the keys. -/
theorem defaultBucketShardSplitEquiv
    (model : Model) (s1 s2 : List (String × Tensor)) (buckets : List RegexBucket)
    (conv : List (String × Tensor) → List (String × Tensor))
    (itemConv : String → Tensor → List (String × Tensor)) (m' : Model)
    (hconv : ∀ sd, conv sd = sd.flatMap (fun kv => itemConv kv.1 kv.2))
    (hkeys : ((s1 ++ s2).map Prod.fst).Nodup)
    (hnomatch : ∀ kv ∈ s1 ++ s2, numMatching buckets kv.1 = 0)
    (hbempty : ∀ b ∈ buckets, b.contents = [])
    (hcdup : ((conv (s1 ++ s2)).map Prod.fst).Nodup)
    (hslotnodup : ∀ pm ∈ model,
      (pm.2.params.map Prod.fst).Nodup ∧ (pm.2.buffers.map Prod.fst).Nodup)
    (hcomb : loadModelFromCheckpoints model [s1 ++ s2] buckets conv = .ok m') :
    loadModelFromCheckpoints model [s1, s2] buckets conv = .ok m' := by
  have hconvnil : conv [] = [] := by
    rw [hconv]
    rfl
  have hsplitC : conv (s1 ++ s2) = conv s1 ++ conv s2 := by
    simp only [hconv]
    exact List.flatMap_append s1 s2 _
  have hmapkeys : (s1.map Prod.fst).Nodup ∧ (s2.map Prod.fst).Nodup := by
    rw [List.map_append] at hkeys
    exact ⟨(List.nodup_append.mp hkeys).1, (List.nodup_append.mp hkeys).2.1⟩
  have hnm1 : ∀ kv ∈ s1, numMatching buckets kv.1 = 0 :=
    fun kv hkv => hnomatch kv (List.mem_append_left s2 hkv)
  have hnm2 : ∀ kv ∈ s2, numMatching buckets kv.1 = 0 :=
    fun kv hkv => hnomatch kv (List.mem_append_right s1 hkv)
  have hcdup' : ((conv s1 ++ conv s2).map Prod.fst).Nodup := by
    rw [← hsplitC]
    exact hcdup
  have hdisjC : ∀ k : String, assocFind (conv s1) k = none ∨ assocFind (conv s2) k = none := by
    intro k
    by_cases hk : assocFind (conv s1) k = none
    · exact Or.inl hk
    · right
      apply assocFind_none_of_not_mem_keys
      intro hmem2
      have hmem1 := mem_keys_of_assocFind_ne_none (conv s1) k hk
      rw [List.map_append] at hcdup'
      exact (List.disjoint_of_nodup_append hcdup') hmem1 hmem2
  have hPS : processShards conv ⟨model, [], buckets, []⟩ [s1 ++ s2] =
      match convertAndLoadStateDict conv model (s1 ++ s2) [] with
      | .error e => .error e
      | .ok p => .ok ⟨p.1, [], buckets, p.2⟩ := by
    rw [processShards_cons,
      processShard_default_only conv buckets hconvnil hbempty model [] (s1 ++ s2)
        hnomatch hkeys]
    cases convertAndLoadStateDict conv model (s1 ++ s2) [] with
    | error e => rfl
    | ok p => rfl
  have hPS2 : processShards conv ⟨model, [], buckets, []⟩ [s1, s2] =
      match convertAndLoadStateDict conv model s1 [] with
      | .error e => .error e
      | .ok p =>
        match convertAndLoadStateDict conv p.1 s2 p.2 with
        | .error e => .error e
        | .ok q => .ok ⟨q.1, [], buckets, q.2⟩ := by
    rw [processShards_cons,
      processShard_default_only conv buckets hconvnil hbempty model [] s1 hnm1 hmapkeys.1]
    cases convertAndLoadStateDict conv model s1 [] with
    | error e => rfl
    | ok p =>
      show processShards conv ⟨p.1, [], buckets, p.2⟩ [s2] =
        (match convertAndLoadStateDict conv p.1 s2 p.2 with
        | Except.error e => (Except.error e : Except LoadError LoadState)
        | Except.ok q => Except.ok ⟨q.1, [], buckets, q.2⟩)
      rw [processShards_cons,
        processShard_default_only conv buckets hconvnil hbempty p.1 p.2 s2 hnm2 hmapkeys.2]
      cases convertAndLoadStateDict conv p.1 s2 p.2 with
      | error e => rfl
      | ok q => rfl
  by_cases hc1e : conv s1 = []
  · have hcal1 : convertAndLoadStateDict conv model s1 [] = .ok (model, []) := by
      rw [convertAndLoad_eq, hc1e]
      rw [if_pos (show ([] : List (String × Tensor)).length = 0 from rfl)]
    have hcc : convertAndLoadStateDict conv model (s1 ++ s2) [] =
        convertAndLoadStateDict conv model s2 [] :=
      convertAndLoad_congr conv model [] _ _ (by rw [hsplitC, hc1e, List.nil_append])
    have hPSeq : processShards conv ⟨model, [], buckets, []⟩ [s1, s2] =
        processShards conv ⟨model, [], buckets, []⟩ [s1 ++ s2] := by
      rw [hPS, hPS2, hcc, hcal1]
    rw [load_eq, hPSeq, ← load_eq]
    exact hcomb
  · by_cases hc2e : conv s2 = []
    · have hcal2p : ∀ (mdl : Model) (seen : List String),
          convertAndLoadStateDict conv mdl s2 seen = .ok (mdl, seen) := by
        intro mdl seen
        rw [convertAndLoad_eq, hc2e]
        rw [if_pos (show ([] : List (String × Tensor)).length = 0 from rfl)]
      have hcc : convertAndLoadStateDict conv model (s1 ++ s2) [] =
          convertAndLoadStateDict conv model s1 [] :=
        convertAndLoad_congr conv model [] _ _ (by rw [hsplitC, hc2e, List.append_nil])
      have hPSeq : processShards conv ⟨model, [], buckets, []⟩ [s1, s2] =
          processShards conv ⟨model, [], buckets, []⟩ [s1 ++ s2] := by
        rw [hPS, hPS2, hcc]
        cases convertAndLoadStateDict conv model s1 [] with
        | error e => rfl
        | ok p =>
          show (match convertAndLoadStateDict conv p.1 s2 p.2 with
            | Except.error e => (Except.error e : Except LoadError LoadState)
            | Except.ok q => Except.ok ⟨q.1, [], buckets, q.2⟩) =
            Except.ok ⟨p.1, [], buckets, p.2⟩
          rw [hcal2p p.1 p.2]
      rw [load_eq, hPSeq, ← load_eq]
      exact hcomb
    · have hlenC : ¬ ((conv (s1 ++ s2)).length = 0) := by
        rw [hsplitC]
        intro hc
        rcases List.append_eq_nil.mp (List.length_eq_zero.mp hc) with ⟨ha, -⟩
        exact hc1e ha
      rw [load_eq, hPS] at hcomb
      cases hem : emplaceModuleStateDict model (conv (s1 ++ s2)) with
      | error e =>
        have hcalC : convertAndLoadStateDict conv model (s1 ++ s2) [] = .error e := by
          rw [convertAndLoad_eq, if_neg hlenC, hem]
        rw [hcalC] at hcomb
        cases hcomb
      | ok mE =>
        have hcalC : convertAndLoadStateDict conv model (s1 ++ s2) [] =
            .ok (mE, seenUpdate [] ((conv (s1 ++ s2)).map Prod.fst)) := by
          rw [convertAndLoad_eq, if_neg hlenC, hem]
        rw [hcalC] at hcomb
        rw [hsplitC] at hem
        obtain ⟨mA, e1, e2⟩ :=
          emplace_append_split (conv s1) (conv s2) hdisjC model mE hslotnodup hem
        have hcal1 : convertAndLoadStateDict conv model s1 [] =
            .ok (mA, seenUpdate [] ((conv s1).map Prod.fst)) := by
          rw [convertAndLoad_eq, if_neg (by simpa [List.length_eq_zero] using hc1e), e1]
        have hcal2 : convertAndLoadStateDict conv mA s2
            (seenUpdate [] ((conv s1).map Prod.fst)) =
            .ok (mE, seenUpdate (seenUpdate [] ((conv s1).map Prod.fst))
              ((conv s2).map Prod.fst)) := by
          rw [convertAndLoad_eq, if_neg (by simpa [List.length_eq_zero] using hc2e), e2]
        have hseq : seenUpdate ([] : List String) ((conv (s1 ++ s2)).map Prod.fst) =
            seenUpdate (seenUpdate [] ((conv s1).map Prod.fst)) ((conv s2).map Prod.fst) := by
          rw [hsplitC, List.map_append, seenUpdate_append]
        have hsplitPS : processShards conv ⟨model, [], buckets, []⟩ [s1, s2] =
            .ok ⟨mE, [], buckets,
              seenUpdate (seenUpdate [] ((conv s1).map Prod.fst)) ((conv s2).map Prod.fst)⟩ := by
          rw [hPS2, hcal1]
          show (match convertAndLoadStateDict conv mA s2
              (seenUpdate [] ((conv s1).map Prod.fst)) with
            | Except.error e => (Except.error e : Except LoadError LoadState)
            | Except.ok q => Except.ok ⟨q.1, [], buckets, q.2⟩) = _
          rw [hcal2]
        rw [hseq] at hcomb
        rw [load_eq, hsplitPS]
        exact hcomb

/-- Witness for C8 at concrete inputs: an empty model, the key-wise converter
that drops every pair, the shard `[(a, tZero)]` split from the empty shard. -/
theorem defaultBucketShardSplitEquivWitness :
    loadModelFromCheckpoints [] [[("a", tZero)], []] []
      (fun sd => sd.flatMap (fun kv => (fun _ _ => []) kv.1 kv.2)) = .ok [] :=
  defaultBucketShardSplitEquiv [] [("a", tZero)] [] []
    (fun sd => sd.flatMap (fun kv => (fun _ _ => []) kv.1 kv.2))
    (fun _ _ => []) []
    (fun _ => rfl) (by decide) (by decide)
    (fun b hb => absurd hb (List.not_mem_nil b))
    (by decide)
    (fun pm hpm => absurd hpm (List.not_mem_nil pm))
    rfl

end Serde
